import Mathlib

/-!
# Verification of the tabular data-cleaning pipeline

A shallow embedding, in Lean 4, of the data-cleaning core of the repository:

* `01_missing_values.py`    — missing-value diagnosis and handling,
* `02_outlier_handling.py`  — outlier detection and mitigation,
* `03_data_type_fixing.py`  — type coercion (numeric / boolean parsers),
* `04_feature_normalization.py` — fit/transform feature scaling.

Modelling conventions:

* A pandas float cell is `Option ℚ`: `none` models `NaN` (which in pandas is
  also the missing marker of float columns), `some q` a finite float.  All
  arithmetic in the sources is exact on the inputs we reason about, so `ℚ`
  stands in for IEEE doubles.
* A general cell is `Option Val` where `Val` is a tagged value
  (number / string / bool); `none` is the absent marker (`NaN`/`None`/`pd.NA`).
* Raised Python exceptions (`ValueError`, `KeyError`) are modelled with
  `Except String`.
* `float.sqrt` (used only by `Series.std`) is modelled by a rational square
  root (`ratSqrt`), which agrees with the real square root on `0` and is
  positive on positives — the only facts about `std` any property below
  depends on.
* Sorting in pandas (`sort_values`, report sorting) uses an unstable
  quicksort; the embedding uses a stable insertion sort (`sortByLe`) with the
  same key.  No property proved here depends on the order of tied elements.
-/

set_option maxHeartbeats 1000000

attribute [local semireducible] Rat.add Rat.mul Rat.inv Rat.sub

deriving instance DecidableEq for Except

namespace DataCleaning

/-- Kernel-evaluable integer square root: the largest `k` with `k*k ≤ n`
(all square roots actually evaluated in this file are of tiny numbers). -/
def natSqrt (n : ℕ) : ℕ :=
  ((List.range (n + 1)).filter fun k => k * k ≤ n).foldl max 0

/-- `Int.sqrt`, kernel-evaluable. -/
def intSqrt (z : ℤ) : ℤ := (natSqrt z.toNat : ℤ)

/-- `Rat.sqrt`, kernel-evaluable: square root of the numerator over square
root of the denominator, exactly as `Mathlib`'s `Rat.sqrt`.  It models
`float.sqrt`; the development only uses that it is `0` at `0` and positive on
positives. -/
def ratSqrt (q : ℚ) : ℚ := mkRat (intSqrt q.num) (natSqrt q.den)

/-! ## Series of floats (`Option ℚ` = float-or-NaN) -/

/-- A pandas numeric `Series`: a list of float cells, `none` = `NaN`. -/
abbrev RSeries := List (Option ℚ)

/-- `Series.dropna()`: the non-null values, in order. -/
def dropna (s : RSeries) : List ℚ := s.filterMap id

/-- Boolean `≤` on `ℚ`, used as the sort key. -/
def ratLe (a b : ℚ) : Bool := decide (a ≤ b)

/-- Insert into a `le`-sorted list (helper of `sortByLe`). -/
def insertLe (le : α → α → Bool) (a : α) : List α → List α
  | [] => [a]
  | b :: bs => if le a b then a :: b :: bs else b :: insertLe le a bs

/-- Insertion sort.  Models the sorts performed by pandas (`np.sort` inside
`quantile`, `sort_values`, report sorting): it produces a `le`-sorted
permutation of the input, which is all any property below uses (pandas's
unstable quicksort and this stable sort may order tied elements
differently). -/
def sortByLe (le : α → α → Bool) (l : List α) : List α := l.foldr (insertLe le) []


/-- The non-null values of a series, sorted ascending. -/
def sortedVals (s : RSeries) : List ℚ := sortByLe ratLe (dropna s)

/-- `numpy`/pandas quantile with the default `linear` interpolation, on an
already sorted list: position `h = q*(n-1)`, result
`xs[⌊h⌋] + (h-⌊h⌋)·(xs[⌊h⌋+1] - xs[⌊h⌋])`.  `none` on an empty list
(pandas returns `NaN`). -/
def quantileSorted (xs : List ℚ) (q : ℚ) : Option ℚ :=
  match xs with
  | [] => none
  | _ :: _ =>
    let h : ℚ := q * ((xs.length : ℚ) - 1)
    let i : ℕ := h.floor.toNat
    let g : ℚ := h - (h.floor : ℚ)
    let a := xs.getD i 0
    let b := xs.getD (i + 1) a
    some (a + g * (b - a))

/-- `Series.quantile(q)`: NaNs are skipped, then linear interpolation. -/
def seriesQuantile (s : RSeries) (q : ℚ) : Option ℚ :=
  quantileSorted (sortedVals s) q

/-- `Series.mean()`: NaNs skipped; `NaN` (here `none`) on an empty series. -/
def seriesMean (s : RSeries) : Option ℚ :=
  let v := dropna s
  if v.length = 0 then none else some (v.sum / (v.length : ℚ))

/-- `Series.min()`: NaNs skipped; `NaN` on empty. -/
def seriesMin (s : RSeries) : Option ℚ :=
  match dropna s with
  | [] => none
  | x :: xs => some (xs.foldl min x)

/-- `Series.max()`: NaNs skipped; `NaN` on empty. -/
def seriesMax (s : RSeries) : Option ℚ :=
  match dropna s with
  | [] => none
  | x :: xs => some (xs.foldl max x)

/-- Population variance (`ddof=0`), NaNs skipped. -/
def pvariance (s : RSeries) : Option ℚ :=
  match seriesMean s with
  | none => none
  | some m =>
    let v := dropna s
    some ((v.map (fun x => (x - m) ^ 2)).sum / (v.length : ℚ))

/-- `Series.std(ddof=0)`.  The square root of the (exact, rational) variance
is modelled by `Rat.sqrt`; the development only uses that it is `0` exactly
on variance `0` and positive otherwise. -/
def pstd (s : RSeries) : Option ℚ := (pvariance s).map ratSqrt

/-- NaN-propagating subtraction of float scalars. -/
def oSub : Option ℚ → Option ℚ → Option ℚ
  | some a, some b => some (a - b)
  | _, _ => none

/-- NaN-propagating division of float scalars.  Division by zero never occurs
on the guarded paths below (the sources substitute `1.0` first); we map it to
`none`. -/
def oDiv : Option ℚ → Option ℚ → Option ℚ
  | some a, some b => if b = 0 then none else some (a / b)
  | _, _ => none

/-! ## `02_outlier_handling.py` — detection and capping primitives -/

/-- `iqr_bounds(s, k)`: `[Q1 - k·IQR, Q3 + k·IQR]`, collapsing to `[Q1, Q3]`
when the IQR is zero or NaN. -/
def iqrBounds (s : RSeries) (k : ℚ) : Option ℚ × Option ℚ :=
  match seriesQuantile s (1/4), seriesQuantile s (3/4) with
  | some q1, some q3 =>
    if q3 - q1 = 0 then (some q1, some q3)
    else (some (q1 - k * (q3 - q1)), some (q3 + k * (q3 - q1)))
  | q1, q3 => (q1, q3)

/-- `detect_outliers_iqr(s, k)`: `(s < lo) | (s > hi)`; all-`False` on an
all-NaN series; comparisons with `NaN` are `False`. -/
def detectOutliersIqr (s : RSeries) (k : ℚ) : List Bool :=
  match dropna s with
  | [] => List.replicate s.length false
  | x :: xs =>
    match iqrBounds ((x :: xs).map some) k with
    | (some lo, some hi) =>
      s.map fun o => match o with
        | some v => decide (v < lo) || decide (hi < v)
        | none => false
    | _ => List.replicate s.length false

/-- `np.nanmedian`: median of the non-null values (linear interpolation at
`q = 1/2` averages the two middle values, as numpy does). -/
def nanmedianQ (s : RSeries) : Option ℚ := seriesQuantile s (1/2)

/-- The MAD (`np.nanmedian(np.abs(x - med))`) of a series. -/
def madOf (s : RSeries) : Option ℚ :=
  match nanmedianQ s with
  | none => none
  | some med => nanmedianQ (s.map (Option.map fun x => |x - med|))

/-- `robust_zscore_mad(s)`: `0.6745·(x - median)/MAD`, forced to all zeros
when the MAD is zero or NaN. -/
def robustZscoreMad (s : RSeries) : RSeries :=
  match nanmedianQ s, madOf s with
  | some med, some mad =>
    if mad = 0 then List.replicate s.length (some 0)
    else s.map (Option.map fun x => 1349/2000 * (x - med) / mad)
  | _, _ => List.replicate s.length (some 0)

/-- `detect_outliers_mad(s, z_th)`: `|z| > z_th` (`False` at NaN). -/
def detectOutliersMad (s : RSeries) (zTh : ℚ) : List Bool :=
  (robustZscoreMad s).map fun o => match o with
    | some z => decide (zTh < |z|)
    | none => false

/-- Scalar clipping `min(max(v, lo), hi)`, the elementwise effect of
`Series.clip(lower, upper)`. -/
def clipQ (v lo hi : ℚ) : ℚ := min (max v lo) hi

/-- `Series.clip(lower=lo, upper=hi)`: elementwise clamp, NaN kept NaN. -/
def clipSeries (s : RSeries) (lo hi : ℚ) : RSeries :=
  s.map (Option.map fun v => clipQ v lo hi)

/-- `cap_by_percentile(s, lower_q, upper_q)`: winsorize at the two quantiles
of the non-null values; an all-NaN series is returned unchanged. -/
def capByPercentile (s : RSeries) (lowerQ upperQ : ℚ) : RSeries :=
  match sortedVals s with
  | [] => s
  | x :: xs =>
    match quantileSorted (x :: xs) lowerQ, quantileSorted (x :: xs) upperQ with
    | some lo, some hi => clipSeries s lo hi
    | _, _ => s

/-! ## `03_data_type_fixing.py` — numeric and boolean coercion

Python string operations are modelled on `List Char` (`String.data`), which
the kernel evaluates.  `str.strip` / `str.lower` act on the character
list exactly as Python does on the (ASCII-relevant) inputs. -/

/-- `str.strip()`: drop whitespace from both ends. -/
def strip (cs : List Char) : List Char :=
  ((cs.dropWhile Char.isWhitespace).reverse.dropWhile Char.isWhitespace).reverse

/-- `str.lower()`. -/
def lowerChars (cs : List Char) : List Char := cs.map Char.toLower

/-- The sentinel tokens treated as missing by `coerce_numeric_series`
(compared after strip + lower). -/
def numericSentinels : List (List Char) :=
  ["na", "n/a", "null", "none", "nan", "-"].map String.data

/-- The regex `^\((.*)\)$`: if the token is wrapped in parentheses (with no
newline inside, which `.` does not match), return the inner part. -/
def parensInner (cs : List Char) : Option (List Char) :=
  if cs.head? = some '(' ∧ cs.getLast? = some ')' ∧ 2 ≤ cs.length
      ∧ ((cs.drop 1).dropLast.all fun c => c ≠ '\n') then
    some ((cs.drop 1).dropLast)
  else none

/-- The regex `[₩$€£, ]+` → `""`: currency symbols, thousands separators and
spaces are removed. -/
def stripCurrency (cs : List Char) : List Char :=
  cs.filter fun c => ¬ (c ∈ ['₩', '$', '€', '£', ',', ' '])

/-- The regex `[^0-9.\-+eE]` → `""`: keep only float-literal characters. -/
def keepNumChars (cs : List Char) : List Char :=
  cs.filter fun c => c.isDigit ∨ c ∈ ['.', '-', '+', 'e', 'E']

/-- Digits to a natural number (`cs` is all digits when used). -/
def digitsToNat (cs : List Char) : ℕ :=
  cs.foldl (fun n c => 10 * n + (c.toNat - '0'.toNat)) 0

/-- Python's `float(x)` on a string of characters drawn from `0-9.+-eE`:
`[sign] (digits [. digits] | . digits) [(e|E) [sign] digits]`.  Everything
else (`""`, `"-"`, `"1.2.3"`, `"1e"`, `"--3"`, …) raises `ValueError`,
modelled by `none`. -/
def parseFloat (cs : List Char) : Option ℚ :=
  let (sgn, cs) : ℚ × List Char :=
    match cs with
    | '+' :: t => (1, t)
    | '-' :: t => (-1, t)
    | t => (1, t)
  let (ip, cs) := cs.span Char.isDigit
  let (fp, cs) :=
    match cs with
    | '.' :: t => t.span Char.isDigit
    | t => ([], t)
  if ip.isEmpty ∧ fp.isEmpty then none
  else
    let mant : ℚ := (digitsToNat ip : ℚ) + (digitsToNat fp : ℚ) / ((10 : ℚ) ^ fp.length)
    match cs with
    | [] => some (sgn * mant)
    | c :: t =>
      if c = 'e' ∨ c = 'E' then
        let (esgn, t) : ℤ × List Char :=
          match t with
          | '+' :: r => (1, r)
          | '-' :: r => (-1, r)
          | r => (1, r)
        let (ed, r) := t.span Char.isDigit
        if ed.isEmpty ∨ ¬ r.isEmpty then none
        else some (sgn * mant * (10 : ℚ) ^ (esgn * (digitsToNat ed : ℤ)))
      else none

/-- `_to_number(x)` of `coerce_numeric_series`: strip; missing-sentinel check;
parenthesis negatives; currency/comma/space removal; trailing `%` (divide by
100); keep float characters; `float(...)` or `None`. -/
def toNumber (x : String) : Option ℚ :=
  let s := strip x.data
  if s = [] ∨ lowerChars s ∈ numericSentinels then none
  else
    let s := match parensInner s with
      | some inner => '-' :: inner
      | none => s
    let s := stripCurrency s
    let isPct := s.getLast? = some '%'
    let s := if isPct then s.dropLast else s
    let s := keepNumChars s
    match parseFloat s with
    | some v => some (if isPct then v / 100 else v)
    | none => none

/-- `coerce_numeric_series(s)`: map `_to_number` over the cells (a missing
cell — `pd.NA` — also fails the parse and stays missing) and report
`converted.isna().mean()` as the fail rate (`NaN`, i.e. `none`, on an empty
series). -/
def coerceNumericSeries (s : List (Option String)) : List (Option ℚ) × Option ℚ :=
  let conv := s.map fun c => c.bind toNumber
  (conv,
    if s.length = 0 then none
    else some ((conv.countP Option.isNone : ℚ) / (s.length : ℚ)))

/-- `_TRUE_SET` of `coerce_bool_series` (note: it contains `"t"`). -/
def boolTrueSet : List (List Char) := ["true", "t", "yes", "y", "1", "on"].map String.data

/-- `_FALSE_SET` of `coerce_bool_series` (note: it contains `"f"`). -/
def boolFalseSet : List (List Char) := ["false", "f", "no", "n", "0", "off"].map String.data

/-- The missing-sentinel tokens of `_to_bool`. -/
def boolNASet : List (List Char) := ["na", "n/a", "null", "none", "nan"].map String.data

/-- The normalisation `_to_bool` applies before the vocabulary lookup:
`str(x).strip().lower()`. -/
def normBoolToken (x : String) : List Char := lowerChars (strip x.data)

/-- `_to_bool(x)` of `coerce_bool_series`. -/
def toBool (x : String) : Option Bool :=
  let s := normBoolToken x
  if s = [] ∨ s ∈ boolNASet then none
  else if s ∈ boolTrueSet then some true
  else if s ∈ boolFalseSet then some false
  else none

/-- `coerce_bool_series(s)`: map `_to_bool` (a missing cell stays missing)
plus the fail rate. -/
def coerceBoolSeries (s : List (Option String)) : List (Option Bool) × Option ℚ :=
  let conv := s.map fun c => c.bind toBool
  (conv,
    if s.length = 0 then none
    else some ((conv.countP Option.isNone : ℚ) / (s.length : ℚ)))

/-! ## The shared table model

A pandas `DataFrame` is an ordered list of named columns.  A cell is
`Option Val` — `none` models the absent marker (`NaN` / `None` / `pd.NA` /
`NaT`), `Val` a concrete value.  A column carries a dtype tag, which is what
`pd.api.types.is_numeric_dtype` inspects. -/

/-- A concrete (non-absent) cell value. -/
inductive Val where
  | num (q : ℚ)
  | str (s : String)
  | boolean (b : Bool)
deriving DecidableEq

/-- A cell: `none` is the absent marker. -/
abbrev Cell := Option Val

/-- Column dtype tag (only numeric-vs-not is ever inspected). -/
inductive DType where
  | numeric
  | text
  | boolean
deriving DecidableEq

/-- A named column. -/
structure Column where
  name : String
  dtype : DType
  cells : List Cell
deriving DecidableEq

/-- A `DataFrame`: an ordered list of named columns. -/
abbrev Table := List Column

/-- `df.columns`. -/
def names (t : Table) : List String := t.map (·.name)

/-- `df[c]` as a column lookup (first match; frames built here have unique
column names). -/
def getCol (t : Table) (c : String) : Option Column :=
  t.find? fun col => col.name = c

/-- The cells of column `c` (`[]` when absent — callers guard existence). -/
def getCells (t : Table) (c : String) : List Cell :=
  ((getCol t c).map (·.cells)).getD []

/-- `len(df)`: the row count (all columns have equal length in a well-formed
frame; we read the first). -/
def nRows (t : Table) : ℕ :=
  match t with
  | [] => 0
  | col :: _ => col.cells.length

/-- Read a cell as a float (`NaN` for absent; non-numeric values never occur
in the numeric columns these paths touch). -/
def cellNum : Cell → Option ℚ
  | some (.num q) => some q
  | _ => none

/-- Column `c` viewed as a float series. -/
def colNums (t : Table) (c : String) : RSeries := (getCells t c).map cellNum

/-- `pd.api.types.is_numeric_dtype(df[c])`. -/
def isNumericCol (t : Table) (c : String) : Bool :=
  match getCol t c with
  | some col => col.dtype = .numeric
  | none => false

/-- In-place column-cells assignment `df[c] = f(df[c])` for an existing
column (dtype-preserving value update). -/
def updateColCells (t : Table) (c : String) (f : List Cell → List Cell) : Table :=
  t.map fun col => if col.name = c then { col with cells := f col.cells } else col

/-- `df[c] = series` assignment: replace the column in place if it exists,
else append it at the end (pandas semantics). -/
def setCol (t : Table) (c : String) (d : DType) (cells : List Cell) : Table :=
  if (getCol t c).isSome then
    t.map fun col => if col.name = c then ⟨c, d, cells⟩ else col
  else t ++ [⟨c, d, cells⟩]

/-- All columns have equal length (spec invariant (a)). -/
def Wf (t : Table) : Prop := ∀ col ∈ t, col.cells.length = nRows t

instance decidableWf (t : Table) : Decidable (Wf t) :=
  inferInstanceAs (Decidable (∀ col ∈ t, col.cells.length = nRows t))

/-! ## `04_feature_normalization.py` — `FeatureNormalizer` -/

/-- `NormalizationSpec`. -/
structure NormalizationSpec where
  method : String := "standard"
  columns : Option (List String) := none
  clip : Bool := false
  clipRange : ℚ × ℚ := (-5, 5)
deriving DecidableEq

/-- `FeatureNormalizer`: the spec plus the fitted per-column statistics
`params_ : Dict[str, Dict[str, float]]` (an ordered association list; the
`yeo_johnson` method fits an sklearn `PowerTransformer`, an external library
object that is not repository code and is not modelled — no theorem below
involves that method). -/
structure FeatureNormalizer where
  spec : NormalizationSpec
  params : List (String × List (String × Option ℚ)) := []
deriving DecidableEq

/-- `FeatureNormalizer(spec)`. -/
def FeatureNormalizer.init (spec : NormalizationSpec) : FeatureNormalizer :=
  { spec := spec, params := [] }

/-- `_get_columns`: an explicit column list is filtered to the columns
actually present; otherwise all numeric columns of the given frame. -/
def FeatureNormalizer.getColumns (nz : FeatureNormalizer) (t : Table) : List String :=
  match nz.spec.columns with
  | some cs => cs.filter fun c => c ∈ names t
  | none => (t.filter fun col => col.dtype = .numeric).map (·.name)

/-- Python's `x or 1.0` on a float statistic: `0.0` is falsy and becomes
`1.0`; `NaN` is truthy and propagates. -/
def orOne : Option ℚ → Option ℚ
  | some x => if x = 0 then some 1 else some x
  | none => none

/-- `dict.__setitem__` on an ordered association list. -/
def dictInsert (d : List (String × α)) (k : String) (v : α) : List (String × α) :=
  if (d.lookup k).isSome then d.map fun p => if p.1 = k then (k, v) else p
  else d ++ [(k, v)]

/-- `dict.__getitem__` (raises `KeyError` when absent). -/
def dictGet (d : List (String × α)) (k : String) : Except String α :=
  match d.lookup k with
  | some v => .ok v
  | none => .error "KeyError"

/-- The `(max_ - min_) or 1.0` denominator of min-max transform. -/
def minmaxDenom (mn mx : Option ℚ) : Option ℚ := orOne (oSub mx mn)

/-- `FeatureNormalizer.fit`: compute and store per-column statistics.  The
`log` method needs no fit; an unknown method stores nothing (the source has
no `else` branch). -/
def FeatureNormalizer.fit (nz : FeatureNormalizer) (t : Table) : FeatureNormalizer :=
  let cols := nz.getColumns t
  if nz.spec.method = "standard" then
    { nz with params := cols.foldl (fun d c =>
        dictInsert d c [("mean", seriesMean (colNums t c)),
                        ("std", orOne (pstd (colNums t c)))]) nz.params }
  else if nz.spec.method = "minmax" then
    { nz with params := cols.foldl (fun d c =>
        dictInsert d c [("min", seriesMin (colNums t c)),
                        ("max", seriesMax (colNums t c))]) nz.params }
  else if nz.spec.method = "robust" then
    { nz with params := cols.foldl (fun d c =>
        dictInsert d c [("median", seriesQuantile (colNums t c) (1/2)),
                        ("iqr", orOne (oSub (seriesQuantile (colNums t c) (3/4))
                                            (seriesQuantile (colNums t c) (1/4))))]) nz.params }
  else nz

/-- `np.log1p` is transcendental, hence not `ℚ`-valued; the `log` branch is
modelled with this surrogate purely so the branch exists structurally.  No
theorem in this file depends on its values (none of the frozen claims
involves the `log` method). -/
def log1pSurrogate (v : ℚ) : ℚ := v

/-- `FeatureNormalizer.transform`: apply the stored statistics.  Missing
`params_` entries surface as `KeyError` (`Except.error`); an unknown or
unmodelled method falls through with no per-column change (source `if/elif`
chain without `else`), after which the optional clip is applied. -/
def FeatureNormalizer.transform (nz : FeatureNormalizer) (t : Table) : Except String Table := do
  let cols := nz.getColumns t
  let t' ←
    if nz.spec.method = "standard" then
      cols.foldlM (fun acc c => do
        let d ← dictGet nz.params c
        let mean ← dictGet d "mean"
        let std ← dictGet d "std"
        pure (updateColCells acc c fun cs =>
          cs.map fun cell => (oDiv (oSub (cellNum cell) mean) std).map Val.num)) t
    else if nz.spec.method = "minmax" then
      cols.foldlM (fun acc c => do
        let d ← dictGet nz.params c
        let mn ← dictGet d "min"
        let mx ← dictGet d "max"
        pure (updateColCells acc c fun cs =>
          cs.map fun cell => (oDiv (oSub (cellNum cell) mn) (minmaxDenom mn mx)).map Val.num)) t
    else if nz.spec.method = "robust" then
      cols.foldlM (fun acc c => do
        let d ← dictGet nz.params c
        let med ← dictGet d "median"
        let iqr ← dictGet d "iqr"
        pure (updateColCells acc c fun cs =>
          cs.map fun cell => (oDiv (oSub (cellNum cell) med) iqr).map Val.num)) t
    else if nz.spec.method = "log" then
      pure (cols.foldl (fun acc c => updateColCells acc c fun cs =>
        cs.map fun cell => ((cellNum cell).map fun v => Val.num (log1pSurrogate (max v 0)))) t)
    else
      pure t
  if nz.spec.clip then
    pure (cols.foldl (fun acc c => updateColCells acc c fun cs =>
      cs.map fun cell =>
        ((cellNum cell).map fun v => Val.num (clipQ v nz.spec.clipRange.1 nz.spec.clipRange.2))) t')
  else
    pure t'

/-- `fit_transform`: fit then transform on the same frame. -/
def FeatureNormalizer.fitTransform (nz : FeatureNormalizer) (t : Table) : Except String Table :=
  (nz.fit t).transform t

/-! ## `01_missing_values.py` — diagnosis and handling -/

/-- `_validate_columns`: `None` means all columns; an explicit list must be a
subset of the frame's columns (else `ValueError`). -/
def validateColumns (t : Table) (columns : Option (List String)) : Except String (List String) :=
  match columns with
  | none => .ok (names t)
  | some cs =>
    if cs.all (fun c => c ∈ names t) then .ok cs
    else .error "Unknown columns"

/-- One row of `missing_summary`. -/
structure SummaryRow where
  column : String
  missing_cnt : ℕ
  missing_pct : ℚ
  non_missing_cnt : ℤ
  dtype : DType
deriving DecidableEq

/-- `sort_by` of `missing_summary`. -/
inductive SummarySortBy
  | missing_pct
  | missing_cnt
  | column
deriving DecidableEq

/-- The comparison `missing_summary` sorts by (`ascending = not descending`). -/
def summaryLe (sortBy : SummarySortBy) (descending : Bool) (r1 r2 : SummaryRow) : Bool :=
  let le :=
    match sortBy with
    | .missing_pct => decide (r1.missing_pct ≤ r2.missing_pct)
    | .missing_cnt => decide (r1.missing_cnt ≤ r2.missing_cnt)
    | .column => !decide (r2.column < r1.column)
  if descending then !le || decide (r1 = r2) else le

/-- `missing_summary(df, columns, sort_by, descending)`: per-column absent
count/rate (`pct = cnt/n*100`, `0.0` on an empty frame). -/
def missingSummary (t : Table) (columns : Option (List String))
    (sortBy : SummarySortBy := .missing_pct) (descending : Bool := true) :
    Except String (List SummaryRow) := do
  let cols ← validateColumns t columns
  let n := nRows t
  let rows := cols.map fun c =>
    let cnt := (getCells t c).countP Option.isNone
    { column := c
      missing_cnt := cnt
      missing_pct := if 0 < n then (cnt : ℚ) / (n : ℚ) * 100 else 0
      non_missing_cnt := (n : ℤ) - (cnt : ℤ)
      dtype := ((getCol t c).map (·.dtype)).getD .text : SummaryRow }
  pure (sortByLe (summaryLe sortBy descending) rows)

/-- The eleven `FillStrategy` literals of `handle_missing`. -/
inductive FillStrategy
  | drop_rows
  | drop_cols
  | constant
  | mean
  | median
  | mode
  | group_median
  | group_mode
  | ffill
  | bfill
  | interpolate_linear
deriving DecidableEq

/-- The keyword arguments of `handle_missing`. -/
structure HMConfig where
  columns : Option (List String) := none
  strategy : FillStrategy := .median
  constant_value : Val := .num 0
  drop_threshold_pct : ℚ := 60
  groupby_col : Option String := none
  time_col : Option String := none
  sort_time : Bool := true
deriving DecidableEq

/-- `Series.fillna(fv)`: absent cells get `fv` (which may itself be absent,
leaving them absent). -/
def fillCells (cells : List Cell) (fv : Cell) : List Cell :=
  cells.map fun c => match c with
    | none => fv
    | some v => some v

/-- Ordering on concrete values, used where pandas sorts cell values
(`mode()` output, `sort_values`).  Frames processed here hold one value kind
per column; across kinds an arbitrary rank applies. -/
def valRank : Val → ℕ
  | .num _ => 0
  | .str _ => 1
  | .boolean _ => 2

/-- Boolean `≤` on values (see `valRank`). -/
def valLe (a b : Val) : Bool :=
  match a, b with
  | .num x, .num y => decide (x ≤ y)
  | .str x, .str y => !decide (y < x)
  | .boolean x, .boolean y => !x || y
  | _, _ => decide (valRank a ≤ valRank b)

/-- `df[c].mode(dropna=True).iloc[0]` when the mode list is non-empty:
the smallest among the most frequent non-absent values (`mode()` returns
them sorted); `none` when the column has no non-absent value. -/
def modeFirst (cells : List Cell) : Option Val :=
  let vals := cells.filterMap id
  let maxCnt := (vals.map fun v => vals.count v).foldl max 0
  let cands := vals.filter fun v => vals.count v = maxCnt
  match sortByLe valLe cands with
  | [] => none
  | v :: _ => some v

/-- One `mean`/`median` loop iteration of `handle_missing`: non-numeric
requested columns are deliberately left untouched (source comment: "여기서는
안전하게 그대로 둔다" — leave it as is), with no error and no report. -/
def fillMeanMedianCol (useMean : Bool) (t : Table) (c : String) : Table :=
  if isNumericCol t c then
    let v : Option ℚ :=
      if useMean then seriesMean (colNums t c) else seriesQuantile (colNums t c) (1/2)
    updateColCells t c fun cs => fillCells cs (v.map Val.num)
  else t

/-- One `mode` loop iteration: fill only when a mode exists. -/
def fillModeCol (t : Table) (c : String) : Table :=
  match modeFirst (getCells t c) with
  | none => t
  | some m => updateColCells t c fun cs => fillCells cs (some m)

/-- One `group_median` loop iteration:
`df[c].fillna(df.groupby(g)[c].transform("median"))`.  Rows whose group key
is absent get no fill (groupby drops NaN keys); non-numeric columns are
skipped (`continue`). -/
def groupMedianFillCol (t : Table) (g c : String) : Table :=
  if isNumericCol t c then
    let gcells := getCells t g
    updateColCells t c fun cs =>
      (List.range cs.length).map fun i =>
        match cs.getD i none with
        | some v => some v
        | none =>
          match gcells.getD i none with
          | none => none
          | some key =>
            let vals := (List.range cs.length).filterMap fun j =>
              if gcells.getD j none = some key then cellNum (cs.getD j none) else none
            (quantileSorted (sortByLe ratLe vals) (1/2)).map Val.num
  else t

/-- One `group_mode` loop iteration:
`df[c].fillna(df.groupby(g)[c].transform(_mode)))` where `_mode` yields the
first mode or `NaN`. -/
def groupModeFillCol (t : Table) (g c : String) : Table :=
  let gcells := getCells t g
  updateColCells t c fun cs =>
    (List.range cs.length).map fun i =>
      match cs.getD i none with
      | some v => some v
      | none =>
        match gcells.getD i none with
        | none => none
        | some key =>
          let groupCells := (List.range cs.length).filterMap fun j =>
            if gcells.getD j none = some key then some (cs.getD j none) else none
          modeFirst groupCells

/-- The shared guard of the two group-based strategies: `groupby_col` must be
supplied and present, else `ValueError` before any fill. -/
def groupFillRun (isMedian : Bool) (cfg : HMConfig) (cols : List String) (t : Table) :
    Except String Table :=
  match cfg.groupby_col with
  | none => .error "groupby_col is required for group-based strategies."
  | some g =>
    if g ∈ names t then
      .ok (cols.foldl
        (fun acc c => if isMedian then groupMedianFillCol acc g c else groupModeFillCol acc g c) t)
    else .error "groupby_col not found in df."

/-- `Series.ffill()` (carry the last seen value forward). -/
def ffillCells : List Cell → Cell → List Cell
  | [], _ => []
  | c :: rest, carry =>
    match c with
    | some v => some v :: ffillCells rest (some v)
    | none => carry :: ffillCells rest carry

/-- `Series.bfill()`. -/
def bfillCells (cells : List Cell) : List Cell :=
  (ffillCells cells.reverse none).reverse

/-- Nearest valid value strictly before `i`. -/
def prevValid (s : RSeries) (i : ℕ) : Option (ℕ × ℚ) :=
  (List.range i).reverse.findSome? fun j => (s.getD j none).map fun q => (j, q)

/-- Nearest valid value at or after `i`. -/
def nextValid (s : RSeries) (i n : ℕ) : Option (ℕ × ℚ) :=
  ((List.range n).drop i).findSome? fun j => (s.getD j none).map fun q => (j, q)

/-- `Series.interpolate(method="linear", limit_direction="both")`: interior
gaps are linear in row position; leading/trailing gaps take the nearest valid
value; an all-absent column stays absent. -/
def interpolateCells (cells : List Cell) : List Cell :=
  let s : RSeries := cells.map cellNum
  let n := cells.length
  (List.range n).map fun i =>
    match s.getD i none with
    | some v => some (Val.num v)
    | none =>
      match prevValid s i, nextValid s i n with
      | some (j, a), some (k, b) =>
        if k = j then some (Val.num a)
        else some (Val.num (a + (((i : ℚ) - (j : ℚ)) * (b - a)) / ((k : ℚ) - (j : ℚ))))
      | some (_, a), none => some (Val.num a)
      | none, some (_, b) => some (Val.num b)
      | none, none => none

/-- NaN-last boolean `≤` on cells (`sort_values` default `na_position='last'`). -/
def cellLeNaLast (a b : Cell) : Bool :=
  match a, b with
  | none, none => true
  | none, some _ => false
  | some _, none => true
  | some x, some y => valLe x y

/-- `df.sort_values(by=key).reset_index(drop=True)`: rows reordered by the
key column (ties in an unspecified order in pandas; sorted stably here). -/
def sortRowsBy (t : Table) (key : String) : Table :=
  let kc := getCells t key
  let perm := sortByLe (fun i j => cellLeNaLast (kc.getD i none) (kc.getD j none))
    (List.range (nRows t))
  t.map fun col => { col with cells := perm.map fun i => col.cells.getD i none }

/-- Restrict all columns to the given row positions. -/
def filterRows (t : Table) (keep : List ℕ) : Table :=
  t.map fun col => { col with cells := keep.map fun i => col.cells.getD i none }

/-- `df.dropna(subset=cols)`: drop every row with an absent cell in any of
`cols`. -/
def dropnaRows (t : Table) (cols : List String) : Table :=
  filterRows t ((List.range (nRows t)).filter fun i =>
    cols.all fun c => ((getCells t c).getD i none).isSome)

/-- The time preparation shared by `ffill`/`bfill`/`interpolate_linear`:
when `time_col` is supplied it must exist (else `ValueError`), and the frame
is sorted by it when `sort_time`; with no `time_col` the frame is used in its
current row order, with no error. -/
def timePrepped (cfg : HMConfig) (t : Table) : Except String Table :=
  match cfg.time_col with
  | none => .ok t
  | some tc =>
    if tc ∈ names t then .ok (if cfg.sort_time then sortRowsBy t tc else t)
    else .error "time_col not found in df."

/-- `handle_missing(df, ...)`: validate the requested columns, then apply the
selected strategy to a copy (the caller's frame is never mutated; the final
`Unknown strategy` raise of the source is unreachable over the closed
`FillStrategy` type). -/
def handleMissing (cfg : HMConfig) (t : Table) : Except String Table := do
  let cols ← validateColumns t cfg.columns
  match cfg.strategy with
  | .drop_rows => pure (dropnaRows t cols)
  | .drop_cols => do
    let summ ← missingSummary t (some cols) .missing_pct
    let toDrop := (summ.filter fun r => decide (cfg.drop_threshold_pct ≤ r.missing_pct)).map (·.column)
    pure (t.filter fun col => decide (¬ col.name ∈ toDrop))
  | .constant =>
    pure (cols.foldl
      (fun acc c => updateColCells acc c fun cs => fillCells cs (some cfg.constant_value)) t)
  | .mean => pure (cols.foldl (fillMeanMedianCol true) t)
  | .median => pure (cols.foldl (fillMeanMedianCol false) t)
  | .mode => pure (cols.foldl fillModeCol t)
  | .group_median => groupFillRun true cfg cols t
  | .group_mode => groupFillRun false cfg cols t
  | .ffill => do
    let t' ← timePrepped cfg t
    pure (cols.foldl (fun acc c => updateColCells acc c fun cs => ffillCells cs none) t')
  | .bfill => do
    let t' ← timePrepped cfg t
    pure (cols.foldl (fun acc c => updateColCells acc c bfillCells) t')
  | .interpolate_linear => do
    let t' ← timePrepped cfg t
    let numCols := cols.filter fun c => isNumericCol t' c
    pure (numCols.foldl (fun acc c => updateColCells acc c interpolateCells) t')

/-- One row of `compare_missing_before_after`. -/
structure CompareRow where
  column : String
  missing_cnt_before : ℕ
  missing_pct_before : ℚ
  missing_cnt_after : ℕ
  missing_pct_after : ℚ
  missing_cnt_delta : ℤ
  missing_pct_delta : ℚ
deriving DecidableEq

/-- One joined row of `compare_missing_before_after` for column `c`: the
before/after absent counts and rates and their deltas. -/
def mkCompareRow (before after : Table) (c : String) : CompareRow :=
  let cb := (getCells before c).countP Option.isNone
  let ca := (getCells after c).countP Option.isNone
  let pb : ℚ := if 0 < nRows before then (cb : ℚ) / (nRows before : ℚ) * 100 else 0
  let pa : ℚ := if 0 < nRows after then (ca : ℚ) / (nRows after : ℚ) * 100 else 0
  { column := c
    missing_cnt_before := cb
    missing_pct_before := pb
    missing_cnt_after := ca
    missing_pct_after := pa
    missing_cnt_delta := (ca : ℤ) - (cb : ℤ)
    missing_pct_delta := pa - pb }

/-- `compare_missing_before_after(before, after, columns)`: validate the
requested columns against `before`, keep those also present in `after`, join
the two `missing_summary` tables by column name, and sort by
`missing_pct_before` descending.  (The source joins via `set_index`; with
unique column names that is exactly the per-name lookup used here.) -/
def compareMissingBeforeAfter (before after : Table) (columns : Option (List String)) :
    Except String (List CompareRow) := do
  let cols ← validateColumns before columns
  let cols2 := cols.filter fun c => c ∈ names after
  let rows := cols2.map (mkCompareRow before after)
  pure (sortByLe (fun r1 r2 => !decide (r1.missing_pct_before ≤ r2.missing_pct_before)
    || decide (r1 = r2)) rows)

/-! ## `02_outlier_handling.py` — `apply_outlier_policy` -/

/-- `OutlierPolicy` (defaults as in the source). -/
structure OutlierPolicy where
  method : String := "iqr"
  action : String := "cap"
  iqr_k : ℚ := 3/2
  mad_z : ℚ := 7/2
  cap_lower_q : ℚ := 1/100
  cap_upper_q : ℚ := 99/100
  min_non_null : ℕ := 30
deriving DecidableEq

/-- `select_numeric_columns(df, include)`. -/
def selectNumericColumns (t : Table) (include? : Option (List String)) : List String :=
  match include? with
  | some cs => (cs.filter fun c => c ∈ names t).filter fun c => isNumericCol t c
  | none => (t.filter fun col => col.dtype = .numeric).map (·.name)

/-- One report row of `apply_outlier_policy`.  `outlier_rate` is `Option ℚ`
(`none` = NaN, reachable only for the synthetic drop row on an empty frame).
The human-readable `notes` string interpolates floats with `%.6g` in the
source; float formatting is not modelled, so a fixed tag stands in (its
content appears in no claim). -/
structure OutlierRow where
  column : String
  method : String
  action : String
  non_null : ℕ
  outliers : ℕ
  outlier_rate : Option ℚ
  notes : String
deriving DecidableEq

/-- `round(q, 6)`.  (Python rounds exact ties to even; `Rat.round` rounds
them up — the claims below never inspect a rounded rate.) -/
def round6 (q : ℚ) : ℚ := ((round (q * 1000000) : ℤ) : ℚ) / 1000000

/-- The report sort `sort_values(by=["action", "outlier_rate"],
ascending=[True, False])`. -/
def outlierReportLe (r1 r2 : OutlierRow) : Bool :=
  if r1.action = r2.action then
    match r1.outlier_rate, r2.outlier_rate with
    | some a, some b => decide (b ≤ a)
    | some _, none => true
    | none, some _ => false
    | none, none => true
  else !decide (r2.action < r1.action)

/-- The detection dispatch of the `apply_outlier_policy` column loop: the
outlier mask plus the threshold note, or `ValueError` on an unknown method. -/
def outlierDetect (policy : OutlierPolicy) (s : RSeries) :
    Except String (List Bool × String) :=
  if policy.method = "iqr" then
    .ok (detectOutliersIqr s policy.iqr_k, "iqr_k and iqr bounds")
  else if policy.method = "mad" then
    .ok (detectOutliersMad s policy.mad_z, "mad_z threshold")
  else if policy.method = "pct" then
    .ok ((s.map fun o =>
      match o, seriesQuantile s policy.cap_lower_q, seriesQuantile s policy.cap_upper_q with
      | some v, some l, some h => decide (v < l) || decide (h < v)
      | _, _, _ => false), "cap quantile bounds")
  else
    .error "Unsupported method"

/-- The action dispatch of the column loop: flag (append indicator column),
cap (winsorize the column in place) or drop (accumulate the row mask), or
`ValueError` on an unknown action. -/
def outlierApplyAction (policy : OutlierPolicy) (suffix colName : String)
    (mask : List Bool) (tbl : Table) (maskT : List Bool) :
    Except String (Table × List Bool) :=
  if policy.action = "flag" then
    .ok (setCol tbl (colName ++ suffix) .boolean (mask.map fun b => some (Val.boolean b)),
      maskT)
  else if policy.action = "cap" then
    .ok (updateColCells tbl colName (fun cs =>
      (capByPercentile (cs.map cellNum) policy.cap_lower_q policy.cap_upper_q).map
        (Option.map Val.num)), maskT)
  else if policy.action = "drop" then
    .ok (tbl, maskT.zipWith (fun a b => a || b) mask)
  else
    .error "Unsupported action"

/-- One iteration of the `apply_outlier_policy` column loop, threading the
working frame, the report rows and the accumulated drop mask. -/
def outlierStep (policy : OutlierPolicy) (suffix : String)
    (st : Table × List OutlierRow × List Bool) (colName : String) :
    Except String (Table × List OutlierRow × List Bool) := do
  let (tbl, rows, maskT) := st
  let s := colNums tbl colName
  let nonNull := s.countP Option.isSome
  if nonNull < policy.min_non_null then
    pure (tbl,
      rows ++ [⟨colName, policy.method, "skip (too few non-null)", nonNull, 0, some 0,
               "min_non_null guard"⟩],
      maskT)
  else do
    let (mask, note) ← outlierDetect policy s
    let outliers := mask.countP id
    let rate : ℚ := if nonNull ≠ 0 then (outliers : ℚ) / (nonNull : ℚ) else 0
    let (tbl', maskT') ← outlierApplyAction policy suffix colName mask tbl maskT
    pure (tbl',
      rows ++ [⟨colName, policy.method, policy.action, nonNull, outliers, some (round6 rate), note⟩],
      maskT')

/-- `apply_outlier_policy(df, columns, policy, flag_suffix)`: run the column
loop over the numeric target columns; under action `"drop"` remove, at the
end, every row flagged in any processed column and append the synthetic
`__ROW_FILTER__` report row; finally sort the report. -/
def applyOutlierPolicy (df : Table) (columns : Option (List String) := none)
    (policy : OutlierPolicy := {}) (flagSuffix : String := "__is_outlier") :
    Except String (Table × List OutlierRow) := do
  let numCols := selectNumericColumns df columns
  let st0 : Table × List OutlierRow × List Bool :=
    (df, [], List.replicate (nRows df) false)
  let (tbl, rows, maskT) ← numCols.foldlM (outlierStep policy flagSuffix) st0
  if policy.action = "drop" then
    let before := nRows tbl
    let keep := (List.range before).filter fun i => !(maskT.getD i false)
    let cleaned := filterRows tbl keep
    let dropRow : OutlierRow :=
      ⟨"__ROW_FILTER__", policy.method, "drop rows", before, maskT.countP id,
       if before ≠ 0 then some (round6 ((maskT.countP id : ℚ) / (before : ℚ))) else none,
       "rows before and after"⟩
    pure (cleaned, sortByLe outlierReportLe (rows ++ [dropRow]))
  else
    pure (tbl, sortByLe outlierReportLe rows)

/-- All columns of a frame have length `n` (the shape invariant, generalized
over the length, as used in the invariant-preservation proofs). -/
def AllLen (t : Table) (n : ℕ) : Prop := ∀ col ∈ t, col.cells.length = n

/-- Modelled from the spec: the failure rate C4 claims — "the fraction of
values that were NOT absent in the original input but could not be parsed:
originally-absent input values are excluded from both the numerator and the
denominator".  Stated for comparison with `coerceNumericSeries`; it is not
what the source computes. -/
def specFailureRate (s : List (Option String)) : Option ℚ :=
  let present := s.filterMap id
  if present.length = 0 then none
  else some ((present.countP (fun x => (toNumber x).isNone) : ℚ) / (present.length : ℚ))

/-! ## Basic lemmas about the sort model, and sanity evaluations -/

@[simp]
theorem except_bind_ok (a : α) (f : α → Except ε β) :
    (Except.ok a >>= f : Except ε β) = f a := rfl

@[simp]
theorem except_bind_error (e : ε) (f : α → Except ε β) :
    (Except.error e >>= f : Except ε β) = Except.error e := rfl

@[simp]
theorem except_map_ok (a : α) (f : α → β) :
    (f <$> (Except.ok a : Except ε α)) = Except.ok (f a) := rfl

@[simp]
theorem except_map_error (e : ε) (f : α → β) :
    (f <$> (Except.error e : Except ε α)) = Except.error e := rfl

@[simp]
theorem except_pure (a : α) : (pure a : Except ε α) = Except.ok a := rfl

@[simp]
theorem except_isOk_ok (a : α) : (Except.ok a : Except ε α).isOk = true := rfl

@[simp]
theorem except_isOk_error (e : ε) : (Except.error e : Except ε α).isOk = false := rfl

theorem exists_ok_of_isOk {x : Except ε α} (h : x.isOk = true) : ∃ a, x = Except.ok a := by
  cases x with
  | ok a => exact ⟨a, rfl⟩
  | error e => simp at h

theorem length_insertLe (le : α → α → Bool) (a : α) (l : List α) :
    (insertLe le a l).length = l.length + 1 := by
  induction l with
  | nil => rfl
  | cons b bs ih => simp only [insertLe]; split <;> simp [ih]

theorem length_sortByLe (le : α → α → Bool) (l : List α) :
    (sortByLe le l).length = l.length := by
  induction l with
  | nil => rfl
  | cons b bs ih => simp [sortByLe, List.foldr_cons, length_insertLe] at ih ⊢; omega

theorem perm_insertLe (le : α → α → Bool) (a : α) (l : List α) :
    (insertLe le a l).Perm (a :: l) := by
  induction l with
  | nil => exact List.Perm.refl _
  | cons b bs ih =>
    simp only [insertLe]; split
    · exact List.Perm.refl _
    · exact (List.Perm.cons b ih).trans (List.Perm.swap a b bs)

theorem perm_sortByLe (le : α → α → Bool) (l : List α) :
    (sortByLe le l).Perm l := by
  induction l with
  | nil => exact List.Perm.refl _
  | cons b bs ih =>
    exact (perm_insertLe le b (sortByLe le bs)).trans (List.Perm.cons b ih)

example : toNumber "₩1,200" = some 1200 := by decide

example : toNumber "(3,500)" = some (-3500) := by decide

example : toNumber "12.5%" = some (1/8) := by decide

example : toNumber "N/A" = none := by decide

example : toNumber "1.5e-2" = some (3/200) := by decide

example : toNumber "1.2.3" = none := by decide

example : toBool "T" = some true := by decide

example : toBool " Yes " = some true := by decide

example : toBool "unknown" = none := by decide

example :
    (FeatureNormalizer.fitTransform
      (.init { method := "standard", columns := some ["a"] })
      [⟨"a", .numeric, [some (.num 0), some (.num 2)]⟩])
    = .ok [⟨"a", .numeric, [some (.num (-1)), some (.num 1)]⟩] := by decide

example :
    (FeatureNormalizer.fitTransform
      (.init { method := "minmax", columns := none })
      [⟨"a", .numeric, [some (.num 1), some (.num 3), none]⟩, ⟨"b", .text, [none, none, none]⟩])
    = .ok [⟨"a", .numeric, [some (.num 0), some (.num 1), none]⟩, ⟨"b", .text, [none, none, none]⟩] := by
  decide

example :
    handleMissing { columns := some ["income"], strategy := .group_median,
                    groupby_col := some "segment" }
      [⟨"segment", .text, [some (.str "A"), some (.str "A"), some (.str "A"),
                           some (.str "B"), some (.str "B")]⟩,
       ⟨"income", .numeric, [some (.num 10), some (.num 20), none, some (.num 100), none]⟩]
    = .ok
      [⟨"segment", .text, [some (.str "A"), some (.str "A"), some (.str "A"),
                           some (.str "B"), some (.str "B")]⟩,
       ⟨"income", .numeric, [some (.num 10), some (.num 20), some (.num 15),
                             some (.num 100), some (.num 100)]⟩] := by decide

example :
    handleMissing { columns := some ["x"], strategy := .ffill }
      [⟨"x", .numeric, [none, some (.num 3), none]⟩]
    = .ok [⟨"x", .numeric, [none, some (.num 3), some (.num 3)]⟩] := by decide

example :
    handleMissing { columns := some ["x"], strategy := .interpolate_linear }
      [⟨"x", .numeric, [none, some (.num 1), none, some (.num 3), none]⟩]
    = .ok [⟨"x", .numeric, [some (.num 1), some (.num 1), some (.num 2),
                            some (.num 3), some (.num 3)]⟩] := by decide

example :
    detectOutliersIqr [some 1, some 2, some 3, some 4, some 5, some 100] (3/2)
    = [false, false, false, false, false, true] := by decide

example :
    (applyOutlierPolicy
      [⟨"x", .numeric, [some (.num 1), some (.num 2), some (.num 3), some (.num 4),
                        some (.num 5), some (.num 100)]⟩]
      (some ["x"]) { method := "iqr", action := "drop", min_non_null := 1 }).map
        (fun out => names out.1)
    = .ok ["x"] := by decide

example :
    (applyOutlierPolicy
      [⟨"x", .numeric, [some (.num 1), some (.num 2), some (.num 3), some (.num 4),
                        some (.num 5), some (.num 100)]⟩]
      (some ["x"]) { method := "iqr", action := "drop", min_non_null := 1 }).map
        (fun out => nRows out.1)
    = .ok 5 := by decide

example : seriesQuantile [some 1, some 2, some 3, some 4] (1/4) = some (7/4) := by decide

example : seriesQuantile [some 0, some 100, some 200, some 300] (1/4) = some 75 := by decide

example : capByPercentile [some 0, some 100, some 200, some 300] (1/4) (3/4)
    = [some 75, some 100, some 200, some 225] := by decide

example :
    capByPercentile (capByPercentile [some 0, some 100, some 200, some 300] (1/4) (3/4)) (1/4) (3/4)
    = [some (375/4), some 100, some 200, some (825/4)] := by decide

/-! ## Claim C5 — the numeric-coercion scenario -/

/-- C5: numeric coercion of `["₩1,200", "(3,500)", "12.5%", "N/A"]` yields
`[1200.0, -3500.0, 0.125, absent]` with failure rate `0.25`: the currency
symbol and thousands separators are stripped, the parenthesised token becomes
negative, the trailing `%` divides by 100, and the sentinel `"N/A"` becomes
absent rather than raising. -/
theorem C5_numeric_coercion_scenario :
    coerceNumericSeries [some "₩1,200", some "(3,500)", some "12.5%", some "N/A"]
      = ([some 1200, some (-3500), some (1/8), none], some (1/4)) := by decide

/-! ## Claim C8 — idempotence of capping -/

/-- Scalar clipping at fixed bounds is idempotent. -/
theorem clipQ_idem (v lo hi : ℚ) : clipQ (clipQ v lo hi) lo hi = clipQ v lo hi := by
  simp only [clipQ, min_def, max_def]
  split_ifs <;> linarith

/-- C8 counterexample: `cap_by_percentile` applied twice with the same
quantile pair `(0.25, 0.75)` to `[0, 100, 200, 300]` differs from applying it
once — the second application recomputes the quantiles on the already-capped
data and clips further (`[75, 100, 200, 225]` becomes
`[93.75, 100, 200, 206.25]`). -/
theorem C8_counterexample :
    capByPercentile
        (capByPercentile [some 0, some 100, some 200, some 300] (1/4) (3/4)) (1/4) (3/4)
      ≠ capByPercentile [some 0, some 100, some 200, some 300] (1/4) (3/4) := by decide

/-- C8 (amended): what is idempotent is clipping at *fixed numeric bounds* —
the operation `cap_by_percentile` performs once its two quantile bounds are
computed: re-clipping any series at the same `lo`/`hi` changes nothing.
`cap_by_percentile` itself recomputes the quantile bounds from the capped
data, so re-applying it with the same quantile pair is not idempotent in
general (see the counterexample). -/
theorem C8_clip_fixed_bounds_idempotent (s : RSeries) (lo hi : ℚ) :
    clipSeries (clipSeries s lo hi) lo hi = clipSeries s lo hi := by
  unfold clipSeries
  rw [List.map_map]
  refine List.map_congr_left fun o _ => ?_
  cases o with
  | none => rfl
  | some v => simp [Function.comp, clipQ_idem]

/-! ## Claim C6 — the boolean vocabulary -/

/-- The missing-sentinel tokens are in neither vocabulary. -/
theorem boolNASet_notin_true : ∀ s ∈ boolNASet, ¬ s ∈ boolTrueSet := by decide

/-- The missing-sentinel tokens are in neither vocabulary. -/
theorem boolNASet_notin_false : ∀ s ∈ boolNASet, ¬ s ∈ boolFalseSet := by decide

/-- The truthy and falsy vocabularies are disjoint. -/
theorem boolTrueSet_notin_false : ∀ s ∈ boolTrueSet, ¬ s ∈ boolFalseSet := by decide

/-- The empty token is in neither vocabulary. -/
theorem nil_notin_boolSets : ¬ [] ∈ boolTrueSet ∧ ¬ [] ∈ boolFalseSet := by decide

/-- C6 counterexample: the claim's vocabularies are `yes/y/true/1/on` and
`no/n/false/0/off`, and the claim says every token outside them coerces to
absent; but `"T"` (normalized: `"t"`) is outside both claimed vocabularies
and still coerces to `True`, because the source's `_TRUE_SET` also contains
`"t"` (and `_FALSE_SET` contains `"f"`). -/
theorem C6_counterexample :
    toBool "T" = some true ∧
      ¬ normBoolToken "T" ∈ (["yes", "y", "true", "1", "on"].map String.data) ∧
      ¬ normBoolToken "T" ∈ (["no", "n", "false", "0", "off"].map String.data) := by decide

/-- C6 (amended): boolean coercion maps exactly the tokens
`yes/y/t/true/1/on` (case-insensitive, trimmed — the source `_TRUE_SET`) to
`True` and exactly `no/n/f/false/0/off` (`_FALSE_SET`) to `False`; every
other token becomes the absent value, never `True` or `False`. -/
theorem C6_bool_vocabulary (x : String) :
    (toBool x = some true ↔ normBoolToken x ∈ boolTrueSet) ∧
    (toBool x = some false ↔ normBoolToken x ∈ boolFalseSet) ∧
    (¬ normBoolToken x ∈ boolTrueSet → ¬ normBoolToken x ∈ boolFalseSet →
      toBool x = none) := by
  by_cases hna : normBoolToken x = [] ∨ normBoolToken x ∈ boolNASet
  · have ht : ¬ normBoolToken x ∈ boolTrueSet := by
      rcases hna with h | h
      · rw [h]; exact nil_notin_boolSets.1
      · exact boolNASet_notin_true _ h
    have hf : ¬ normBoolToken x ∈ boolFalseSet := by
      rcases hna with h | h
      · rw [h]; exact nil_notin_boolSets.2
      · exact boolNASet_notin_false _ h
    simp [toBool, hna, ht, hf]
  · by_cases htr : normBoolToken x ∈ boolTrueSet
    · have hfa : ¬ normBoolToken x ∈ boolFalseSet := boolTrueSet_notin_false _ htr
      simp [toBool, hna, htr, hfa]
    · by_cases hfa : normBoolToken x ∈ boolFalseSet
      · simp [toBool, hna, htr, hfa]
      · simp [toBool, hna, htr, hfa]

/-- Witness for `C6_bool_vocabulary` at the concrete token `"maybe"`. -/
theorem C6_bool_vocabulary_witness : toBool "maybe" = none :=
  (C6_bool_vocabulary "maybe").2.2 (by decide) (by decide)

/-! ## Claim C4 — what the coercion failure rate counts -/

/-- C4 counterexample: on the input `[some "1", none]` (one parseable value,
one originally-absent cell) the claim predicts failure rate `0` — the absent
cell is excluded from numerator and denominator and the present value parses
— but `coerce_numeric_series` reports `converted.isna().mean() = 1/2`: the
originally-absent cell is counted in both. -/
theorem C4_counterexample :
    (coerceNumericSeries [some "1", none]).2 = some (1/2) ∧
      specFailureRate [some "1", none] = some 0 ∧ ((1 : ℚ)/2) ≠ 0 := by decide

/-- C4 (amended): the failure rate is `converted.isna().mean()` — the
fraction of *all* input positions whose coerced value is absent, so
originally-absent inputs (which always coerce to absent) are counted in both
the numerator and the denominator. -/
theorem C4_fail_rate_counts_all_rows (s : List (Option String)) (h : s ≠ []) :
    (coerceNumericSeries s).2
      = some (((s.countP Option.isNone : ℚ)
          + (s.countP (fun c => (c.bind toNumber).isNone && c.isSome) : ℚ))
          / (s.length : ℚ)) := by
  have key : ∀ l : List (Option String),
      (l.map fun c => c.bind toNumber).countP Option.isNone
        = l.countP Option.isNone
          + l.countP (fun c => (c.bind toNumber).isNone && c.isSome) := by
    intro l
    induction l with
    | nil => rfl
    | cons c cs ih =>
      cases c with
      | none => simp [List.countP_cons, ih]; omega
      | some x =>
        by_cases hx : (toNumber x).isNone
        · simp [List.countP_cons, ih, hx, Option.some_bind]
          omega
        · simp [List.countP_cons, ih, hx, Option.some_bind]
  have hlen : s.length ≠ 0 := by
    intro h0; exact h (List.length_eq_zero.mp h0)
  simp only [coerceNumericSeries, key, hlen, if_false]
  push_cast
  ring_nf

/-- Witness for `C4_fail_rate_counts_all_rows` on
`[some "abc", none, some "2"]`: one parse failure plus one originally-absent
cell over three rows. -/
theorem C4_fail_rate_witness :
    (coerceNumericSeries [some "abc", none, some "2"]).2 = some (2/3) := by
  rw [C4_fail_rate_counts_all_rows [some "abc", none, some "2"] (by decide)]
  decide

/-! ## Claim C3 — the silent no-op of `handle_missing` -/

/-- From `getCol t c = some col`: `c` is among the frame's column names. -/
theorem mem_names_of_getCol {t : Table} {c : String} {col : Column}
    (hcol : getCol t c = some col) : c ∈ names t := by
  have hmem : col ∈ t := List.mem_of_find?_eq_some hcol
  have hname : col.name = c := by
    have := List.find?_some hcol
    exact of_decide_eq_true this
  exact hname ▸ List.mem_map_of_mem (·.name) hmem

/-- C3 counterexample: `handle_missing` with strategy `"mean"` on the
requested non-numeric column `"city"` returns the input unchanged — no
error is raised and `handle_missing` returns only the frame (its signature
carries no report), so the requested column is skipped with no error and no
report row. -/
theorem C3_counterexample :
    handleMissing { columns := some ["city"], strategy := .mean }
        [⟨"city", .text, [some (.str "a"), none]⟩]
      = .ok [⟨"city", .text, [some (.str "a"), none]⟩] := by decide

/-- C3 (amended): `handle_missing` *can* end in a silent no-op: with strategy
`"mean"`/`"median"` a requested non-numeric column, and with `"mode"` a
requested column having no mode (no non-absent values), is left untouched —
the call returns the input frame unchanged, raises nothing, and produces no
report (the function returns only a frame). -/
theorem C3_silent_noop (t : Table) (c : String) (col : Column)
    (hcol : getCol t c = some col) :
    (col.dtype ≠ .numeric →
      handleMissing { columns := some [c], strategy := .mean } t = .ok t ∧
      handleMissing { columns := some [c], strategy := .median } t = .ok t) ∧
    (modeFirst col.cells = none →
      handleMissing { columns := some [c], strategy := .mode } t = .ok t) := by
  have hc : c ∈ names t := mem_names_of_getCol hcol
  have hval : validateColumns t (some [c]) = .ok [c] := by
    simp [validateColumns, hc]
  refine ⟨fun hnum => ⟨?_, ?_⟩, fun hmode => ?_⟩
  · have hnn : isNumericCol t c = false := by
      simp [isNumericCol, hcol, hnum]
    simp [handleMissing, hval, fillMeanMedianCol, hnn]
  · have hnn : isNumericCol t c = false := by
      simp [isNumericCol, hcol, hnum]
    simp [handleMissing, hval, fillMeanMedianCol, hnn]
  · have hcells : getCells t c = col.cells := by simp [getCells, hcol]
    simp [handleMissing, hval, fillModeCol, hcells, hmode]

/-- Witness for `C3_silent_noop`: a one-column text frame under `"median"`. -/
theorem C3_silent_noop_witness :
    handleMissing { columns := some ["k"], strategy := .median }
        [⟨"k", .text, [none]⟩] = .ok [⟨"k", .text, [none]⟩] :=
  ((C3_silent_noop [⟨"k", .text, [none]⟩] "k" ⟨"k", .text, [none]⟩ (by decide)).1
    (by decide)).2

/-! ## Claim C2 — configuration errors for group/time strategies -/

/-- C2 counterexample: `handle_missing` with the time-based strategy
`"ffill"` and *no* time column (`time_col=None`) does not raise: it
forward-fills in the current row order and returns a frame.  The required
auxiliary column is only validated when one is supplied. -/
theorem C2_counterexample :
    handleMissing { columns := some ["x"], strategy := .ffill, time_col := none }
        [⟨"x", .numeric, [some (.num 1), none]⟩]
      = .ok [⟨"x", .numeric, [some (.num 1), some (.num 1)]⟩] := by decide

/-- C2 (amended): the group-based strategies raise a configuration error
before any fill whenever the grouping column is not supplied or not present;
the time-based strategies raise only when a `time_col` *is supplied* but not
present — with `time_col=None` they proceed without error in the current row
order.  In every error case no frame is returned (and the caller's frame,
processed as a copy, is untouched). -/
theorem C2_missing_aux_column_errors (cfg : HMConfig) (t : Table) :
    ((cfg.strategy = .group_median ∨ cfg.strategy = .group_mode) →
      (cfg.groupby_col = none → ∃ e, handleMissing cfg t = .error e) ∧
      (∀ g, cfg.groupby_col = some g → ¬ g ∈ names t →
        ∃ e, handleMissing cfg t = .error e)) ∧
    ((cfg.strategy = .ffill ∨ cfg.strategy = .bfill ∨ cfg.strategy = .interpolate_linear) →
      (∀ tc, cfg.time_col = some tc → ¬ tc ∈ names t →
        ∃ e, handleMissing cfg t = .error e) ∧
      (cfg.time_col = none → ∀ cs, validateColumns t cfg.columns = .ok cs →
        ∃ t', handleMissing cfg t = .ok t')) := by
  cases hv : validateColumns t cfg.columns with
  | error e =>
    have herr : handleMissing cfg t = .error e := by
      simp [handleMissing, hv]
    exact ⟨fun _ => ⟨fun _ => ⟨e, herr⟩, fun _ _ _ => ⟨e, herr⟩⟩,
           fun _ => ⟨fun _ _ _ => ⟨e, herr⟩, fun _ cs hcs => by simp [hv] at hcs⟩⟩
  | ok cols =>
    constructor
    · rintro (hs | hs)
      all_goals {
        constructor
        · intro hg
          exact ⟨"groupby_col is required for group-based strategies.",
            by simp [handleMissing, hv, hs, groupFillRun, hg]⟩
        · intro g hg hmem
          exact ⟨"groupby_col not found in df.",
            by simp [handleMissing, hv, hs, groupFillRun, hg, hmem]⟩
      }
    · rintro (hs | hs | hs)
      all_goals {
        constructor
        · intro tc htc hmem
          exact ⟨"time_col not found in df.",
            by simp [handleMissing, hv, hs, timePrepped, htc, hmem]⟩
        · intro htc cs _
          exact exists_ok_of_isOk (by simp [handleMissing, hv, hs, timePrepped, htc])
      }

/-- Witness for `C2_missing_aux_column_errors`: a group-median call with no
grouping column errors; an `"ffill"` call naming an absent time column
errors; a `"bfill"` call with no time column succeeds. -/
theorem C2_missing_aux_column_errors_witness :
    (∃ e, handleMissing { strategy := .group_median, groupby_col := none }
        [⟨"x", .numeric, [some (.num 1)]⟩] = .error e) ∧
    (∃ e, handleMissing { strategy := .ffill, time_col := some "ts" }
        [⟨"x", .numeric, [some (.num 1)]⟩] = .error e) ∧
    (∃ t', handleMissing { strategy := .bfill, time_col := none }
        [⟨"x", .numeric, [some (.num 1)]⟩] = .ok t') := by
  refine ⟨?_, ?_, ?_⟩
  · exact ((C2_missing_aux_column_errors _ _).1 (Or.inl rfl)).1 rfl
  · exact ((C2_missing_aux_column_errors _ _).2 (Or.inl rfl)).1 "ts" rfl (by decide)
  · exact ((C2_missing_aux_column_errors _ _).2 (Or.inr (Or.inl rfl))).2 rfl
      ["x"] (by decide)

/-! ## Claim C10 — `compare_missing_before_after` covers the intersection -/

/-- C10: for requested columns that all exist in the `before` frame, the
comparison succeeds (no error) and its output rows cover exactly the
requested columns that also exist in the `after` frame — a requested column
absent from `after` is silently omitted. -/
theorem C10_compare_covers_intersection (before after : Table) (cols : List String)
    (h : ∀ c ∈ cols, c ∈ names before) :
    ∃ rows, compareMissingBeforeAfter before after (some cols) = .ok rows ∧
      (rows.map (·.column)).Perm (cols.filter fun c => c ∈ names after) := by
  have hval : validateColumns before (some cols) = .ok cols := by
    simp only [validateColumns, List.all_eq_true, decide_eq_true_eq]
    rw [if_pos h]
  obtain ⟨rows, hrows⟩ :
      ∃ rows, compareMissingBeforeAfter before after (some cols) = .ok rows :=
    exists_ok_of_isOk (by simp [compareMissingBeforeAfter, hval])
  refine ⟨rows, hrows, ?_⟩
  simp only [compareMissingBeforeAfter, hval, except_bind_ok, except_pure,
    Except.ok.injEq] at hrows
  rw [← hrows]
  refine ((perm_sortByLe _ _).map (fun r : CompareRow => r.column)).trans ?_
  rw [List.map_map]
  have hid : ((fun r : CompareRow => r.column) ∘ mkCompareRow before after)
      = fun c : String => c := rfl
  rw [hid, List.map_id']

/-- Witness for `C10_compare_covers_intersection`: requesting `["a", "b"]`
when `after` only has `"a"` yields rows exactly for `["a"]`. -/
theorem C10_compare_witness :
    ∃ rows, compareMissingBeforeAfter
        [⟨"a", .numeric, [none]⟩, ⟨"b", .numeric, [some (.num 1)]⟩]
        [⟨"a", .numeric, [none]⟩] (some ["a", "b"]) = .ok rows ∧
      (rows.map (·.column)).Perm ["a"] := by
  obtain ⟨rows, h1, h2⟩ := C10_compare_covers_intersection
    [⟨"a", .numeric, [none]⟩, ⟨"b", .numeric, [some (.num 1)]⟩]
    [⟨"a", .numeric, [none]⟩] ["a", "b"] (by decide)
  have hfil : (["a", "b"].filter fun c : String =>
      c ∈ names [(⟨"a", .numeric, [none]⟩ : Column)]) = ["a"] := by decide
  rw [hfil] at h2
  exact ⟨rows, h1, h2⟩

/-! ## Claim C1 — `transform` on a frame missing fitted columns -/

theorem lookup_map_overwrite_eq (d : List (String × α)) (k : String) (v : α)
    (h : (d.lookup k).isSome) :
    (d.map fun p => if p.1 = k then (k, v) else p).lookup k = some v := by
  induction d with
  | nil => simp at h
  | cons q qs ih =>
    simp only [List.map_cons]
    by_cases hq : q.1 = k
    · rw [if_pos hq]
      simp [List.lookup]
    · rw [if_neg hq]
      have hbeq : (k == q.1) = false := by
        simp only [beq_eq_false_iff_ne, ne_eq]
        exact fun hk => hq hk.symm
      simp only [List.lookup, hbeq]
      apply ih
      simpa [List.lookup, hbeq] using h

theorem lookup_map_overwrite_ne (d : List (String × α)) (k c : String) (v : α)
    (hck : c ≠ k) :
    (d.map fun p => if p.1 = k then (k, v) else p).lookup c = d.lookup c := by
  induction d with
  | nil => rfl
  | cons q qs ih =>
    simp only [List.map_cons]
    by_cases hq : q.1 = k
    · rw [if_pos hq]
      have h1 : (c == k) = false := by simpa using hck
      have h2 : (c == q.1) = false := by rw [hq]; exact h1
      simp only [List.lookup, h1, h2]
      exact ih
    · rw [if_neg hq]
      simp only [List.lookup]
      cases c == q.1
      · exact ih
      · rfl

theorem lookup_append_single_eq (d : List (String × α)) (k : String) (v : α)
    (h : d.lookup k = none) : (d ++ [(k, v)]).lookup k = some v := by
  induction d with
  | nil => simp [List.lookup]
  | cons q qs ih =>
    simp only [List.cons_append, List.lookup]
    cases hkq : (k == q.1) with
    | true => simp [List.lookup, hkq] at h
    | false =>
      exact ih (by simpa [List.lookup, hkq] using h)

theorem lookup_append_single_ne (d : List (String × α)) (k c : String) (v : α)
    (hck : c ≠ k) : (d ++ [(k, v)]).lookup c = d.lookup c := by
  induction d with
  | nil =>
    have : (c == k) = false := by simpa using hck
    simp [List.lookup, this]
  | cons q qs ih =>
    simp only [List.cons_append, List.lookup]
    cases c == q.1
    · exact ih
    · rfl

/-- `dict.__setitem__` then `__getitem__`: the inserted key reads back the
new value, every other key is unaffected. -/
theorem lookup_dictInsert (d : List (String × α)) (k c : String) (v : α) :
    (dictInsert d k v).lookup c = if c = k then some v else d.lookup c := by
  unfold dictInsert
  by_cases hs : (d.lookup k).isSome
  · rw [if_pos hs]
    by_cases hck : c = k
    · subst hck; rw [if_pos rfl]; exact lookup_map_overwrite_eq d c v hs
    · rw [if_neg hck]; exact lookup_map_overwrite_ne d k c v hck
  · rw [if_neg hs]
    have hnone : d.lookup k = none := Option.not_isSome_iff_eq_none.mp hs
    by_cases hck : c = k
    · subst hck; rw [if_pos rfl]; exact lookup_append_single_eq d c v hnone
    · rw [if_neg hck]; exact lookup_append_single_ne d k c v hck

/-- Looking up a key after the per-column `fit` loop: every fitted column
maps to its statistics, everything else is untouched. -/
theorem lookup_foldl_dictInsert (f : String → α) (L : List String)
    (d0 : List (String × α)) (c : String) :
    (L.foldl (fun d k => dictInsert d k (f k)) d0).lookup c
      = if c ∈ L then some (f c) else d0.lookup c := by
  induction L generalizing d0 with
  | nil => simp
  | cons k ks ih =>
    simp only [List.foldl_cons]
    rw [ih]
    by_cases hc : c ∈ ks
    · rw [if_pos hc, if_pos (List.mem_cons.mpr (Or.inr hc))]
    · rw [if_neg hc, lookup_dictInsert]
      by_cases hck : c = k
      · subst hck; simp [List.mem_cons]
      · simp [List.mem_cons, hck, hc]

/-- Column-cells assignment does not change the column list. -/
theorem names_updateColCells (t : Table) (c : String) (f : List Cell → List Cell) :
    names (updateColCells t c f) = names t := by
  simp only [names, updateColCells, List.map_map]
  refine List.map_congr_left fun col _ => ?_
  by_cases h : col.name = c <;> simp [h, Function.comp]

/-- The per-column loop of `transform` (for the three per-column scalar
methods) succeeds whenever every target column has a fitted statistics entry
with the two required keys, and it does not change the column list. -/
theorem foldlM_normalizer_ok (params : List (String × List (String × Option ℚ)))
    (k1 k2 : String) (g : Option ℚ → Option ℚ → List Cell → List Cell) :
    ∀ (cols : List String) (acc : Table),
      (∀ c ∈ cols, ∃ d, params.lookup c = some d ∧
        (d.lookup k1).isSome ∧ (d.lookup k2).isSome) →
      ∃ t', (cols.foldlM (fun acc c => do
            let d ← dictGet params c
            let a ← dictGet d k1
            let b ← dictGet d k2
            pure (updateColCells acc c (g a b))) acc) = .ok t' ∧ names t' = names acc
  | [], acc, _ => ⟨acc, rfl, rfl⟩
  | c :: cs, acc, h => by
    obtain ⟨d, hd, h1, h2⟩ := h c (List.mem_cons_self c cs)
    obtain ⟨a, ha⟩ := Option.isSome_iff_exists.mp h1
    obtain ⟨b, hb⟩ := Option.isSome_iff_exists.mp h2
    obtain ⟨t', ht', hn⟩ := foldlM_normalizer_ok params k1 k2 g cs
      (updateColCells acc c (g a b)) (fun x hx => h x (List.mem_cons_of_mem c hx))
    refine ⟨t', ?_, by rw [hn, names_updateColCells]⟩
    rw [List.foldlM_cons]
    simp only [dictGet, hd, ha, hb, except_bind_ok, except_pure]
    exact ht'

/-- `fit` never changes the spec (only `params_`). -/
theorem fit_spec (nz : FeatureNormalizer) (t : Table) : (nz.fit t).spec = nz.spec := by
  unfold FeatureNormalizer.fit
  split_ifs <;> rfl

/-- The constructor stores the spec unchanged. -/
theorem init_spec (s : NormalizationSpec) : (FeatureNormalizer.init s).spec = s := rfl

/-- C1 counterexample: a normalizer fitted on columns `["a", "b"]` and
applied to a frame containing only `"a"` does not raise: it silently skips
the missing fitted column `"b"` and returns the transform of `"a"` alone
(`(5-1)/1 = 4` under the fitted mean `1`, std `1`). -/
theorem C1_counterexample :
    (FeatureNormalizer.fit (.init { method := "standard", columns := some ["a", "b"] })
        [⟨"a", .numeric, [some (.num 0), some (.num 2)]⟩,
         ⟨"b", .numeric, [some (.num 5), some (.num 5)]⟩]).transform
      [⟨"a", .numeric, [some (.num 5)]⟩]
    = .ok [⟨"a", .numeric, [some (.num 4)]⟩] := by decide

/-- C1 (amended): for the per-column scalar methods
(standard/minmax/robust), `_get_columns` filters the fitted column list to
the columns present in the frame given to `transform`; a frame lacking some
fitted columns therefore does NOT fail — `transform` succeeds, silently
skipping the missing fitted columns and returning a frame with exactly the
input frame's columns (the present fitted ones transformed). -/
theorem C1_transform_skips_missing_fitted_columns
    (method : String) (hm : method ∈ (["standard", "minmax", "robust"] : List String))
    (req : List String) (t1 t2 : Table)
    (hfit : ∀ c ∈ req, c ∈ names t1) :
    ∃ t', (FeatureNormalizer.fit
        (.init { method := method, columns := some req }) t1).transform t2
      = .ok t' ∧ names t' = names t2 := by
  have hfilter1 : req.filter (fun c => decide (c ∈ names t1)) = req :=
    List.filter_eq_self.mpr fun c hc => by simpa using hfit c hc
  simp only [List.mem_cons, List.not_mem_nil, or_false] at hm
  rcases hm with rfl | rfl | rfl
  · have hparams : (FeatureNormalizer.fit
        (.init { method := "standard", columns := some req }) t1).params
        = req.foldl (fun d c => dictInsert d c
            [("mean", seriesMean (colNums t1 c)),
             ("std", orOne (pstd (colNums t1 c)))]) [] := by
      simp [FeatureNormalizer.fit, FeatureNormalizer.init, FeatureNormalizer.getColumns,
        hfilter1]
    have hcond : ∀ c ∈ req.filter (fun c => decide (c ∈ names t2)),
        ∃ d, (FeatureNormalizer.fit
            (.init { method := "standard", columns := some req }) t1).params.lookup c
          = some d ∧ (d.lookup "mean").isSome ∧ (d.lookup "std").isSome := by
      intro c hc
      have hcreq : c ∈ req := (List.mem_filter.mp hc).1
      refine ⟨[("mean", seriesMean (colNums t1 c)), ("std", orOne (pstd (colNums t1 c)))],
        ?_, rfl, rfl⟩
      rw [hparams, lookup_foldl_dictInsert, if_pos hcreq]
    obtain ⟨t', hok, hnames⟩ := foldlM_normalizer_ok _ "mean" "std"
      (fun mean std cs => cs.map fun cell => (oDiv (oSub (cellNum cell) mean) std).map Val.num)
      (req.filter (fun c => decide (c ∈ names t2))) t2 hcond
    refine ⟨t', ?_, hnames⟩
    simp only [FeatureNormalizer.transform, FeatureNormalizer.getColumns, fit_spec, init_spec]
    rw [hok]
    simp
  · have hparams : (FeatureNormalizer.fit
        (.init { method := "minmax", columns := some req }) t1).params
        = req.foldl (fun d c => dictInsert d c
            [("min", seriesMin (colNums t1 c)),
             ("max", seriesMax (colNums t1 c))]) [] := by
      simp [FeatureNormalizer.fit, FeatureNormalizer.init, FeatureNormalizer.getColumns,
        hfilter1]
    have hcond : ∀ c ∈ req.filter (fun c => decide (c ∈ names t2)),
        ∃ d, (FeatureNormalizer.fit
            (.init { method := "minmax", columns := some req }) t1).params.lookup c
          = some d ∧ (d.lookup "min").isSome ∧ (d.lookup "max").isSome := by
      intro c hc
      have hcreq : c ∈ req := (List.mem_filter.mp hc).1
      refine ⟨[("min", seriesMin (colNums t1 c)), ("max", seriesMax (colNums t1 c))],
        ?_, rfl, rfl⟩
      rw [hparams, lookup_foldl_dictInsert, if_pos hcreq]
    obtain ⟨t', hok, hnames⟩ := foldlM_normalizer_ok _ "min" "max"
      (fun mn mx cs => cs.map fun cell =>
        (oDiv (oSub (cellNum cell) mn) (minmaxDenom mn mx)).map Val.num)
      (req.filter (fun c => decide (c ∈ names t2))) t2 hcond
    refine ⟨t', ?_, hnames⟩
    simp only [FeatureNormalizer.transform, FeatureNormalizer.getColumns, fit_spec, init_spec]
    rw [hok]
    simp
  · have hparams : (FeatureNormalizer.fit
        (.init { method := "robust", columns := some req }) t1).params
        = req.foldl (fun d c => dictInsert d c
            [("median", seriesQuantile (colNums t1 c) (1/2)),
             ("iqr", orOne (oSub (seriesQuantile (colNums t1 c) (3/4))
                                 (seriesQuantile (colNums t1 c) (1/4))))]) [] := by
      simp [FeatureNormalizer.fit, FeatureNormalizer.init, FeatureNormalizer.getColumns,
        hfilter1]
    have hcond : ∀ c ∈ req.filter (fun c => decide (c ∈ names t2)),
        ∃ d, (FeatureNormalizer.fit
            (.init { method := "robust", columns := some req }) t1).params.lookup c
          = some d ∧ (d.lookup "median").isSome ∧ (d.lookup "iqr").isSome := by
      intro c hc
      have hcreq : c ∈ req := (List.mem_filter.mp hc).1
      refine ⟨[("median", seriesQuantile (colNums t1 c) (1/2)),
          ("iqr", orOne (oSub (seriesQuantile (colNums t1 c) (3/4))
                              (seriesQuantile (colNums t1 c) (1/4))))],
        ?_, rfl, rfl⟩
      rw [hparams, lookup_foldl_dictInsert, if_pos hcreq]
    obtain ⟨t', hok, hnames⟩ := foldlM_normalizer_ok _ "median" "iqr"
      (fun med iqr cs => cs.map fun cell => (oDiv (oSub (cellNum cell) med) iqr).map Val.num)
      (req.filter (fun c => decide (c ∈ names t2))) t2 hcond
    refine ⟨t', ?_, hnames⟩
    simp only [FeatureNormalizer.transform, FeatureNormalizer.getColumns, fit_spec, init_spec]
    rw [hok]
    simp

/-- Witness for `C1_transform_skips_missing_fitted_columns`: fit on
`["a", "b"]`, transform on a frame holding only `"a"` — no error, and the
output has exactly the input frame's columns. -/
theorem C1_transform_skips_witness :
    ∃ t', (FeatureNormalizer.fit
        (.init { method := "minmax", columns := some ["a", "b"] })
        [⟨"a", .numeric, [some (.num 0), some (.num 2)]⟩,
         ⟨"b", .numeric, [some (.num 5), some (.num 5)]⟩]).transform
      [⟨"a", .numeric, [some (.num 1)]⟩]
      = .ok t' ∧ names t' = ["a"] := by
  obtain ⟨t', h1, h2⟩ := C1_transform_skips_missing_fitted_columns "minmax" (by decide)
    ["a", "b"]
    [⟨"a", .numeric, [some (.num 0), some (.num 2)]⟩,
     ⟨"b", .numeric, [some (.num 5), some (.num 5)]⟩]
    [⟨"a", .numeric, [some (.num 1)]⟩] (by decide)
  exact ⟨t', h1, by rw [h2]; decide⟩

/-! ## Claim C7 — degenerate statistics never produce NaN/Inf -/

theorem getD_replicate (n j : ℕ) (v d : ℚ) :
    (List.replicate n v).getD j d = if j < n then v else d := by
  induction n generalizing j with
  | zero => simp
  | succ m ih =>
    cases j with
    | zero => simp [List.replicate_succ]
    | succ jj =>
      simp only [List.replicate_succ, List.getD_cons_succ, Nat.succ_lt_succ_iff]
      exact ih jj

theorem dropna_replicate_some (n : ℕ) (v : ℚ) :
    dropna (List.replicate n (some v)) = List.replicate n v := by
  induction n with
  | zero => rfl
  | succ m ih => simp [List.replicate_succ, dropna, List.filterMap_cons, ih]

theorem sortByLe_replicate (le : α → α → Bool) (n : ℕ) (v : α) :
    sortByLe le (List.replicate n v) = List.replicate n v := by
  have hp := perm_sortByLe le (List.replicate n v)
  refine List.eq_replicate_iff.mpr ⟨?_, ?_⟩
  · rw [length_sortByLe, List.length_replicate]
  · intro b hb
    exact List.eq_of_mem_replicate (hp.subset hb)

theorem foldl_min_replicate (m : ℕ) (v : ℚ) :
    (List.replicate m v).foldl min v = v := by
  induction m with
  | zero => rfl
  | succ k ih => simp [List.replicate_succ, min_self, ih]

theorem foldl_max_replicate (m : ℕ) (v : ℚ) :
    (List.replicate m v).foldl max v = v := by
  induction m with
  | zero => rfl
  | succ k ih => simp [List.replicate_succ, max_self, ih]

/-- The quantile of a constant sorted list is that constant, for any
`q ∈ [0, 1]`. -/
theorem quantileSorted_replicate (n : ℕ) (hn : 1 ≤ n) (v : ℚ) (q : ℚ)
    (_h0 : 0 ≤ q) (h1 : q ≤ 1) :
    quantileSorted (List.replicate n v) q = some v := by
  obtain ⟨m, rfl⟩ : ∃ m, n = m + 1 := ⟨n - 1, by omega⟩
  have hlen : ((List.replicate (m + 1) v).length : ℚ) - 1 = (m : ℚ) := by
    simp
  have hm0 : (0 : ℚ) ≤ (m : ℚ) := by positivity
  have hfl : (q * (m : ℚ)).floor.toNat < m + 1 := by
    have h2 : q * (m : ℚ) ≤ (m : ℚ) := by nlinarith
    have h3 : (q * (m : ℚ)).floor ≤ (m : ℤ) := by
      have := Int.floor_le_floor h2
      simpa using this
    omega
  rw [List.replicate_succ]
  unfold quantileSorted
  simp only [← List.replicate_succ, hlen, getD_replicate, if_pos hfl]
  simp

/-- All the scalar statistics of a constant (non-empty) series. -/
theorem seriesStats_replicate (n : ℕ) (hn : 1 ≤ n) (v : ℚ) :
    seriesMean (List.replicate n (some v)) = some v ∧
    pstd (List.replicate n (some v)) = some 0 ∧
    seriesMin (List.replicate n (some v)) = some v ∧
    seriesMax (List.replicate n (some v)) = some v ∧
    (∀ q : ℚ, 0 ≤ q → q ≤ 1 → seriesQuantile (List.replicate n (some v)) q = some v) := by
  have hd := dropna_replicate_some n v
  have hn0 : (n : ℚ) ≠ 0 := by positivity
  have hmean : seriesMean (List.replicate n (some v)) = some v := by
    simp only [seriesMean, hd, List.length_replicate, List.sum_replicate, nsmul_eq_mul]
    rw [if_neg (by omega)]
    congr 1
    field_simp
  refine ⟨hmean, ?_, ?_, ?_, ?_⟩
  · simp only [pstd, pvariance, hmean, hd, List.map_replicate, sub_self]
    have : ((0 : ℚ) ^ 2) = 0 := by ring
    rw [this]
    simp only [List.sum_replicate, smul_zero, List.length_replicate, zero_div]
    have : ratSqrt 0 = 0 := by decide
    rw [Option.map_some', this]
  · obtain ⟨m, rfl⟩ : ∃ m, n = m + 1 := ⟨n - 1, by omega⟩
    rw [seriesMin, hd, List.replicate_succ]
    simp [foldl_min_replicate]
  · obtain ⟨m, rfl⟩ : ∃ m, n = m + 1 := ⟨n - 1, by omega⟩
    rw [seriesMax, hd, List.replicate_succ]
    simp [foldl_max_replicate]
  · intro q h0 h1
    rw [seriesQuantile, sortedVals, hd, sortByLe_replicate]
    exact quantileSorted_replicate n hn v q h0 h1

/-- C7: degenerate statistics are defended by substitution, not NaN/Inf:
(1) a zero (or NaN) IQR collapses the outlier bounds to `[Q1, Q3]`;
(2) a zero MAD forces every robust z-score to `0`, so no value is flagged
    for any positive threshold;
(3) the `or 1.0` guard turns a zero standard deviation / range / IQR into a
    denominator of `1.0`;
(4) consequently, fitting and transforming a constant numeric column with
    any of the three stat-based scaling methods succeeds and yields the
    all-zero column — never a division by zero. -/
theorem C7_degenerate_stats_are_safe :
    (∀ (s : RSeries) (k q1 q3 : ℚ), seriesQuantile s (1/4) = some q1 →
      seriesQuantile s (3/4) = some q3 → q3 - q1 = 0 →
      iqrBounds s k = (some q1, some q3)) ∧
    (∀ (s : RSeries) (zTh : ℚ), madOf s = some 0 →
      robustZscoreMad s = List.replicate s.length (some 0) ∧
      (0 < zTh → detectOutliersMad s zTh = List.replicate s.length false)) ∧
    orOne (some 0) = some 1 ∧
    (∀ (method : String), method ∈ (["standard", "minmax", "robust"] : List String) →
      ∀ (c : String) (v : ℚ) (n : ℕ), 1 ≤ n →
      FeatureNormalizer.fitTransform (.init { method := method, columns := some [c] })
          [⟨c, .numeric, List.replicate n (some (.num v))⟩]
        = .ok [⟨c, .numeric, List.replicate n (some (.num 0))⟩]) := by
  refine ⟨?_, ?_, rfl, ?_⟩
  · intro s k q1 q3 h1 h3 hiqr
    unfold iqrBounds
    rw [h1, h3]
    simp [hiqr]
  · intro s zTh hmad
    have hzero : robustZscoreMad s = List.replicate s.length (some 0) := by
      cases hmed : nanmedianQ s with
      | none => rw [madOf, hmed] at hmad; cases hmad
      | some med => simp [robustZscoreMad, hmed, hmad]
    refine ⟨hzero, fun hz => ?_⟩
    rw [detectOutliersMad, hzero, List.map_replicate]
    congr 1
    simp only [abs_zero, decide_eq_false_iff_not, not_lt]
    exact le_of_lt hz
  · intro method hm c v n hn
    obtain ⟨hmean, hstd, hmin, hmax, hq⟩ := seriesStats_replicate n hn v
    have hcol : colNums [⟨c, .numeric, List.replicate n (some (.num v))⟩] c
        = List.replicate n (some v) := by
      simp [colNums, getCells, getCol, List.find?_cons_of_pos, List.map_replicate, cellNum]
    simp only [List.mem_cons, List.not_mem_nil, or_false] at hm
    rcases hm with rfl | rfl | rfl
    · simp [FeatureNormalizer.fitTransform, FeatureNormalizer.fit, FeatureNormalizer.transform,
        FeatureNormalizer.init, FeatureNormalizer.getColumns, names, hcol, hmean, hstd,
        orOne, dictInsert, dictGet, List.lookup, updateColCells, List.map_replicate,
        cellNum, oSub, oDiv, sub_self]
    · simp [FeatureNormalizer.fitTransform, FeatureNormalizer.fit, FeatureNormalizer.transform,
        FeatureNormalizer.init, FeatureNormalizer.getColumns, names, hcol, hmin, hmax,
        minmaxDenom, orOne, oSub, dictInsert, dictGet, List.lookup, updateColCells,
        List.map_replicate, cellNum, oDiv, sub_self]
    · simp [FeatureNormalizer.fitTransform, FeatureNormalizer.fit, FeatureNormalizer.transform,
        FeatureNormalizer.init, FeatureNormalizer.getColumns, names, hcol,
        hq (1/2) (by norm_num) (by norm_num), hq (1/4) (by norm_num) (by norm_num),
        hq (3/4) (by norm_num) (by norm_num), orOne, oSub, sub_self, dictInsert, dictGet,
        List.lookup, updateColCells, List.map_replicate, cellNum, oDiv]
      right
      rw [hq 2⁻¹ (by norm_num) (by norm_num), hq 4⁻¹ (by norm_num) (by norm_num)]
      simp [sub_self]

/-- Witness for `C7_degenerate_stats_are_safe` at concrete degenerate
inputs. -/
theorem C7_degenerate_stats_witness :
    iqrBounds [some 2, some 2] 1 = (some 2, some 2) ∧
    detectOutliersMad [some 3, some 3] (7/2) = [false, false] ∧
    FeatureNormalizer.fitTransform (.init { method := "robust", columns := some ["a"] })
        [⟨"a", .numeric, List.replicate 2 (some (.num 5))⟩]
      = .ok [⟨"a", .numeric, List.replicate 2 (some (.num 0))⟩] := by
  refine ⟨?_, ?_, ?_⟩
  · exact C7_degenerate_stats_are_safe.1 [some 2, some 2] 1 2 2
      (by decide) (by decide) (by decide)
  · have h := (C7_degenerate_stats_are_safe.2.1 [some 3, some 3] (7/2)
      (by decide)).2 (by norm_num)
    simpa using h
  · exact C7_degenerate_stats_are_safe.2.2.2 "robust" (by decide) "a" 5 2 (by decide)

/-! ## Claim C9 — shape invariants of the engine outputs -/

theorem Wf_iff_AllLen_nRows (t : Table) : Wf t ↔ AllLen t (nRows t) := Iff.rfl

theorem Wf_of_AllLen {t : Table} {n : ℕ} (h : AllLen t n) : Wf t := by
  cases t with
  | nil => intro col hcol; cases hcol
  | cons c0 cs =>
    intro col hcol
    have h0 : c0.cells.length = n := h c0 (List.mem_cons_self c0 cs)
    have hc : col.cells.length = n := h col hcol
    simp [nRows, h0, hc]

theorem nRows_eq_of_AllLen {t : Table} {n : ℕ} (h : AllLen t n) (ht : t ≠ []) :
    nRows t = n := by
  cases t with
  | nil => exact absurd rfl ht
  | cons c0 cs => exact h c0 (List.mem_cons_self c0 cs)

@[simp]
theorem length_fillCells (cells : List Cell) (fv : Cell) :
    (fillCells cells fv).length = cells.length := by
  simp [fillCells]

@[simp]
theorem length_ffillCells (cells : List Cell) (carry : Cell) :
    (ffillCells cells carry).length = cells.length := by
  induction cells generalizing carry with
  | nil => rfl
  | cons c rest ih =>
    cases c <;> simp [ffillCells, ih]

@[simp]
theorem length_bfillCells (cells : List Cell) :
    (bfillCells cells).length = cells.length := by
  simp [bfillCells]

@[simp]
theorem length_interpolateCells (cells : List Cell) :
    (interpolateCells cells).length = cells.length := by
  simp [interpolateCells]

@[simp]
theorem length_clipSeries (s : RSeries) (lo hi : ℚ) :
    (clipSeries s lo hi).length = s.length := by
  simp [clipSeries]

@[simp]
theorem length_capByPercentile (s : RSeries) (lq uq : ℚ) :
    (capByPercentile s lq uq).length = s.length := by
  unfold capByPercentile
  split
  · rfl
  · split <;> simp

@[simp]
theorem length_robustZscoreMad (s : RSeries) :
    (robustZscoreMad s).length = s.length := by
  unfold robustZscoreMad
  split
  · split <;> simp
  · simp

@[simp]
theorem length_detectOutliersMad (s : RSeries) (z : ℚ) :
    (detectOutliersMad s z).length = s.length := by
  simp [detectOutliersMad]

@[simp]
theorem length_detectOutliersIqr (s : RSeries) (k : ℚ) :
    (detectOutliersIqr s k).length = s.length := by
  unfold detectOutliersIqr
  split
  · simp
  · split <;> simp

theorem AllLen_updateColCells {t : Table} {n : ℕ} (h : AllLen t n) (c : String)
    (f : List Cell → List Cell) (hf : ∀ cs, (f cs).length = cs.length) :
    AllLen (updateColCells t c f) n := by
  intro col hcol
  obtain ⟨col0, hmem, heq⟩ := List.mem_map.mp hcol
  subst heq
  by_cases hname : col0.name = c
  · simp only [if_pos hname]
    rw [hf]
    exact h col0 hmem
  · simp only [if_neg hname]
    exact h col0 hmem

theorem AllLen_foldl {β : Type} {step : Table → β → Table} {n : ℕ}
    (hstep : ∀ t c, AllLen t n → AllLen (step t c) n) :
    ∀ (l : List β) (t : Table), AllLen t n → AllLen (l.foldl step t) n
  | [], _, h => h
  | c :: cs, t, h => AllLen_foldl hstep cs (step t c) (hstep t c h)

theorem AllLen_filter {t : Table} {n : ℕ} (h : AllLen t n) (p : Column → Bool) :
    AllLen (t.filter p) n :=
  fun col hcol => h col (List.mem_of_mem_filter hcol)

theorem AllLen_filterRows (t : Table) (keep : List ℕ) :
    AllLen (filterRows t keep) keep.length := by
  intro col hcol
  obtain ⟨col0, _, heq⟩ := List.mem_map.mp hcol
  subst heq
  simp

theorem AllLen_sortRowsBy {t : Table} {n : ℕ} (h : AllLen t n) (key : String) :
    AllLen (sortRowsBy t key) n := by
  cases ht : t with
  | nil => intro col hcol; simp [sortRowsBy, ht] at hcol
  | cons c0 cs =>
    have hn : nRows t = n := nRows_eq_of_AllLen h (by simp [ht])
    intro col hcol
    rw [← ht] at hcol
    obtain ⟨col0, _, heq⟩ := List.mem_map.mp hcol
    subst heq
    simp [length_sortByLe, hn]

theorem AllLen_setCol {t : Table} {n : ℕ} (h : AllLen t n) (c : String) (d : DType)
    (cells : List Cell) (hc : cells.length = n) : AllLen (setCol t c d cells) n := by
  unfold setCol
  split
  · intro col hcol
    obtain ⟨col0, hmem, heq⟩ := List.mem_map.mp hcol
    subst heq
    by_cases hname : col0.name = c
    · simp only [if_pos hname]
      exact hc
    · simp only [if_neg hname]
      exact h col0 hmem
  · intro col hcol
    rcases List.mem_append.mp hcol with hmem | hmem
    · exact h col hmem
    · rcases List.mem_singleton.mp hmem with rfl
      exact hc

theorem getCol_isSome_iff {t : Table} {c : String} :
    (getCol t c).isSome ↔ c ∈ names t := by
  unfold getCol
  rw [List.find?_isSome]
  constructor
  · rintro ⟨col, hmem, hp⟩
    have : col.name = c := of_decide_eq_true hp
    exact this ▸ List.mem_map_of_mem (·.name) hmem
  · intro hc
    obtain ⟨col, hmem, hname⟩ := List.mem_map.mp hc
    exact ⟨col, hmem, decide_eq_true hname⟩

theorem getCells_length_of_AllLen {t : Table} {n : ℕ} {c : String}
    (h : AllLen t n) (hc : c ∈ names t) : (getCells t c).length = n := by
  obtain ⟨col, hcol⟩ := Option.isSome_iff_exists.mp (getCol_isSome_iff.mpr hc)
  have hmem : col ∈ t := List.mem_of_find?_eq_some hcol
  simp [getCells, hcol]
  exact h col hmem

theorem mem_names_setCol {t : Table} (c : String) (d : DType) (cells : List Cell)
    {x : String} (hx : x ∈ names t) : x ∈ names (setCol t c d cells) := by
  unfold setCol
  split
  · have : names (t.map fun col => if col.name = c then ⟨c, d, cells⟩ else col) = names t := by
      simp only [names, List.map_map]
      refine List.map_congr_left fun col _ => ?_
      by_cases hname : col.name = c
      · simp [hname, Function.comp]
      · simp [hname, Function.comp]
    rw [this]
    exact hx
  · simp only [names, List.map_append]
    exact List.mem_append_left _ hx

theorem mem_names_updateColCells {t : Table} (c : String) (f : List Cell → List Cell)
    {x : String} (hx : x ∈ names t) : x ∈ names (updateColCells t c f) := by
  rw [names_updateColCells]
  exact hx

theorem validateColumns_ok_mem {t : Table} {columns : Option (List String)}
    {cols : List String} (h : validateColumns t columns = .ok cols) :
    ∀ c ∈ cols, c ∈ names t := by
  cases columns with
  | none =>
    simp only [validateColumns, Except.ok.injEq] at h
    subst h
    exact fun c hc => hc
  | some cs =>
    simp only [validateColumns] at h
    split at h
    · rw [Except.ok.injEq] at h
      subst h
      next hall =>
        intro c hc
        exact of_decide_eq_true (List.all_eq_true.mp hall c hc)
    · cases h

theorem validateColumns_some_ok {t : Table} {cols : List String}
    (h : ∀ c ∈ cols, c ∈ names t) : validateColumns t (some cols) = .ok cols := by
  simp only [validateColumns]
  rw [if_pos (List.all_eq_true.mpr fun c hc => decide_eq_true (h c hc))]

theorem AllLen_fillMeanMedianCol {t : Table} {n : ℕ} (h : AllLen t n)
    (b : Bool) (c : String) : AllLen (fillMeanMedianCol b t c) n := by
  unfold fillMeanMedianCol
  split
  · exact AllLen_updateColCells h c _ fun cs => by simp
  · exact h

theorem AllLen_fillModeCol {t : Table} {n : ℕ} (h : AllLen t n) (c : String) :
    AllLen (fillModeCol t c) n := by
  unfold fillModeCol
  split
  · exact h
  · exact AllLen_updateColCells h c _ fun cs => by simp

theorem AllLen_groupMedianFillCol {t : Table} {n : ℕ} (h : AllLen t n)
    (g c : String) : AllLen (groupMedianFillCol t g c) n := by
  unfold groupMedianFillCol
  split
  · exact AllLen_updateColCells h c _ fun cs => by simp
  · exact h

theorem AllLen_groupModeFillCol {t : Table} {n : ℕ} (h : AllLen t n)
    (g c : String) : AllLen (groupModeFillCol t g c) n := by
  unfold groupModeFillCol
  exact AllLen_updateColCells h c _ fun cs => by simp

theorem AllLen_timePrepped {cfg : HMConfig} {t t1 : Table} {n : ℕ}
    (h : AllLen t n) (htp : timePrepped cfg t = .ok t1) : AllLen t1 n := by
  cases htc : cfg.time_col with
  | none =>
    simp only [timePrepped, htc, Except.ok.injEq] at htp
    subst htp
    exact h
  | some tc =>
    simp only [timePrepped, htc] at htp
    split at htp
    · rw [Except.ok.injEq] at htp
      subst htp
      split
      · exact AllLen_sortRowsBy h tc
      · exact h
    · cases htp

/-- The missing-value engine preserves the equal-length invariant, and every
strategy except `drop_rows` preserves the input row count. -/
theorem handleMissing_shape (cfg : HMConfig) (t t' : Table)
    (hwf : Wf t) (hok : handleMissing cfg t = .ok t') :
    Wf t' ∧ (cfg.strategy ≠ .drop_rows → AllLen t' (nRows t)) := by
  have hA : AllLen t (nRows t) := hwf
  unfold handleMissing at hok
  cases hv : validateColumns t cfg.columns with
  | error e => simp [hv] at hok
  | ok cols =>
    rw [hv, except_bind_ok] at hok
    have hmem : ∀ c ∈ cols, c ∈ names t := validateColumns_ok_mem hv
    cases hs : cfg.strategy
    all_goals simp only [hs] at hok
    case drop_rows =>
      rw [except_pure, Except.ok.injEq] at hok
      subst hok
      have hA' := AllLen_filterRows t
        ((List.range (nRows t)).filter fun i =>
          cols.all fun c => ((getCells t c).getD i none).isSome)
      exact ⟨Wf_of_AllLen hA', fun hne => absurd rfl hne⟩
    case drop_cols =>
      obtain ⟨rows, hsumm⟩ :
          ∃ rows, missingSummary t (some cols) .missing_pct true = .ok rows :=
        exists_ok_of_isOk (by simp [missingSummary, validateColumns_some_ok hmem])
      rw [hsumm] at hok
      simp only [except_bind_ok, except_pure, Except.ok.injEq] at hok
      subst hok
      exact ⟨Wf_of_AllLen (AllLen_filter hA _), fun _ => AllLen_filter hA _⟩
    case constant =>
      rw [except_pure, Except.ok.injEq] at hok
      subst hok
      have hA' := AllLen_foldl
        (fun t c h => AllLen_updateColCells h c
          (fun cs => fillCells cs (some cfg.constant_value)) fun cs => by simp) cols t hA
      exact ⟨Wf_of_AllLen hA', fun _ => hA'⟩
    case mean =>
      rw [except_pure, Except.ok.injEq] at hok
      subst hok
      have hA' := AllLen_foldl (fun t c h => AllLen_fillMeanMedianCol h true c) cols t hA
      exact ⟨Wf_of_AllLen hA', fun _ => hA'⟩
    case median =>
      rw [except_pure, Except.ok.injEq] at hok
      subst hok
      have hA' := AllLen_foldl (fun t c h => AllLen_fillMeanMedianCol h false c) cols t hA
      exact ⟨Wf_of_AllLen hA', fun _ => hA'⟩
    case mode =>
      rw [except_pure, Except.ok.injEq] at hok
      subst hok
      have hA' := AllLen_foldl (fun t c h => AllLen_fillModeCol h c) cols t hA
      exact ⟨Wf_of_AllLen hA', fun _ => hA'⟩
    case group_median =>
      cases hg : cfg.groupby_col with
      | none =>
        simp only [groupFillRun, hg] at hok
        exact Except.noConfusion hok
      | some g =>
        simp only [groupFillRun, hg] at hok
        split at hok
        · rw [Except.ok.injEq] at hok
          subst hok
          have hstep : ∀ (tx : Table) (c : String), AllLen tx (nRows t) →
              AllLen (if true = true then groupMedianFillCol tx g c
                else groupModeFillCol tx g c) (nRows t) := by
            intro tx c h
            rw [if_pos rfl]
            exact AllLen_groupMedianFillCol h g c
          have hA' := AllLen_foldl hstep cols t hA
          exact ⟨Wf_of_AllLen hA', fun _ => hA'⟩
        · cases hok
    case group_mode =>
      cases hg : cfg.groupby_col with
      | none =>
        simp only [groupFillRun, hg] at hok
        exact Except.noConfusion hok
      | some g =>
        simp only [groupFillRun, hg] at hok
        split at hok
        · rw [Except.ok.injEq] at hok
          subst hok
          have hstep : ∀ (tx : Table) (c : String), AllLen tx (nRows t) →
              AllLen (if false = true then groupMedianFillCol tx g c
                else groupModeFillCol tx g c) (nRows t) := by
            intro tx c h
            rw [if_neg (by decide)]
            exact AllLen_groupModeFillCol h g c
          have hA' := AllLen_foldl hstep cols t hA
          exact ⟨Wf_of_AllLen hA', fun _ => hA'⟩
        · cases hok
    case ffill =>
      cases htp : timePrepped cfg t with
      | error e => rw [htp] at hok; cases hok
      | ok t1 =>
        rw [htp] at hok
        simp only [except_bind_ok, except_pure, Except.ok.injEq] at hok
        subst hok
        have hA1 : AllLen t1 (nRows t) := AllLen_timePrepped hA htp
        have hA' := AllLen_foldl
          (fun t c h => AllLen_updateColCells h c
            (fun cs => ffillCells cs none) fun cs => by simp) cols t1 hA1
        exact ⟨Wf_of_AllLen hA', fun _ => hA'⟩
    case bfill =>
      cases htp : timePrepped cfg t with
      | error e => rw [htp] at hok; cases hok
      | ok t1 =>
        rw [htp] at hok
        simp only [except_bind_ok, except_pure, Except.ok.injEq] at hok
        subst hok
        have hA1 : AllLen t1 (nRows t) := AllLen_timePrepped hA htp
        have hA' := AllLen_foldl
          (fun t c h => AllLen_updateColCells h c bfillCells fun cs => by simp) cols t1 hA1
        exact ⟨Wf_of_AllLen hA', fun _ => hA'⟩
    case interpolate_linear =>
      cases htp : timePrepped cfg t with
      | error e => rw [htp] at hok; cases hok
      | ok t1 =>
        rw [htp] at hok
        simp only [except_bind_ok, except_pure, Except.ok.injEq] at hok
        subst hok
        have hA1 : AllLen t1 (nRows t) := AllLen_timePrepped hA htp
        have hA' := AllLen_foldl
          (fun t c h => AllLen_updateColCells h c interpolateCells fun cs => by simp)
          (cols.filter fun c => isNumericCol t1 c) t1 hA1
        exact ⟨Wf_of_AllLen hA', fun _ => hA'⟩

theorem selectNumericColumns_mem {t : Table} {inc : Option (List String)} :
    ∀ c ∈ selectNumericColumns t inc, c ∈ names t := by
  intro c hc
  unfold selectNumericColumns at hc
  cases inc with
  | some cs =>
    have h1 := (List.mem_filter.mp hc).1
    exact of_decide_eq_true (List.mem_filter.mp h1).2
  | none =>
    obtain ⟨col, hcol, rfl⟩ := List.mem_map.mp hc
    exact List.mem_map_of_mem (·.name) (List.mem_of_mem_filter hcol)

/-- The invariant carried through the `apply_outlier_policy` column fold:
the frame keeps all columns at length `n`, the accumulated row mask has
length `n`, and no input column disappears. -/
def OutlierInv (df : Table) (n : ℕ) (st : Table × List OutlierRow × List Bool) : Prop :=
  AllLen st.1 n ∧ st.2.2.length = n ∧ ∀ x ∈ names df, x ∈ names st.1

theorem outlierDetect_length {policy : OutlierPolicy} {s : RSeries}
    {mask : List Bool} {note : String}
    (h : outlierDetect policy s = .ok (mask, note)) : mask.length = s.length := by
  unfold outlierDetect at h
  split_ifs at h <;>
    (rw [Except.ok.injEq, Prod.mk.injEq] at h
     rw [← h.1]
     simp)

theorem outlierApplyAction_inv {policy : OutlierPolicy} {suffix colName : String}
    {mask : List Bool} {tbl : Table} {maskT : List Bool} {tbl' : Table}
    {maskT' : List Bool} {df : Table} {n : ℕ}
    (hA : AllLen tbl n) (hM : maskT.length = n) (hmask : mask.length = n)
    (hsub : ∀ x ∈ names df, x ∈ names tbl)
    (h : outlierApplyAction policy suffix colName mask tbl maskT = .ok (tbl', maskT')) :
    AllLen tbl' n ∧ maskT'.length = n ∧ ∀ x ∈ names df, x ∈ names tbl' := by
  unfold outlierApplyAction at h
  by_cases hflag : policy.action = "flag"
  · rw [if_pos hflag, Except.ok.injEq, Prod.mk.injEq] at h
    obtain ⟨h1, h2⟩ := h
    subst h1
    subst h2
    exact ⟨AllLen_setCol hA _ _ _ (by simp [hmask]), hM,
      fun x hx => mem_names_setCol _ _ _ (hsub x hx)⟩
  · rw [if_neg hflag] at h
    by_cases hcap : policy.action = "cap"
    · rw [if_pos hcap, Except.ok.injEq, Prod.mk.injEq] at h
      obtain ⟨h1, h2⟩ := h
      subst h1
      subst h2
      exact ⟨AllLen_updateColCells hA colName
        (fun cs => (capByPercentile (cs.map cellNum) policy.cap_lower_q
          policy.cap_upper_q).map (Option.map Val.num)) (fun cs => by simp), hM,
        fun x hx => mem_names_updateColCells _ _ (hsub x hx)⟩
    · rw [if_neg hcap] at h
      by_cases hdrop : policy.action = "drop"
      · rw [if_pos hdrop, Except.ok.injEq, Prod.mk.injEq] at h
        obtain ⟨h1, h2⟩ := h
        subst h1
        subst h2
        refine ⟨hA, ?_, hsub⟩
        rw [List.length_zipWith, hM, hmask, min_self]
      · rw [if_neg hdrop] at h
        cases h

theorem foldlM_inv {σ γ : Type} (step : σ → γ → Except String σ) (Inv : σ → Prop) :
    ∀ (l : List γ) (st st' : σ),
      (∀ c ∈ l, ∀ s s', Inv s → step s c = .ok s' → Inv s') →
      Inv st → l.foldlM step st = .ok st' → Inv st'
  | [], st, st', _, hst, heq => by
    rw [List.foldlM_nil] at heq
    rw [except_pure, Except.ok.injEq] at heq
    exact heq ▸ hst
  | c :: cs, st, st', hsteps, hst, heq => by
    rw [List.foldlM_cons] at heq
    cases hstep : step st c with
    | error e => rw [hstep] at heq; cases heq
    | ok st1 =>
      rw [hstep, except_bind_ok] at heq
      exact foldlM_inv step Inv cs st1 st'
        (fun x hx => hsteps x (List.mem_cons_of_mem c hx))
        (hsteps c (List.mem_cons_self c cs) st st1 hst hstep) heq

theorem outlierStep_inv (policy : OutlierPolicy) (suffix : String) {df : Table}
    {n : ℕ} {colName : String} (hc : colName ∈ names df)
    {st st' : Table × List OutlierRow × List Bool}
    (hinv : OutlierInv df n st)
    (h : outlierStep policy suffix st colName = .ok st') : OutlierInv df n st' := by
  obtain ⟨tbl, rows, maskT⟩ := st
  obtain ⟨hA, hM, hsub⟩ := hinv
  have hs_len : (colNums tbl colName).length = n := by
    unfold colNums
    rw [List.length_map]
    exact getCells_length_of_AllLen hA (hsub _ hc)
  simp only [outlierStep] at h
  split at h
  · rw [except_pure, Except.ok.injEq] at h
    exact h ▸ ⟨hA, hM, hsub⟩
  · cases hd : outlierDetect policy (colNums tbl colName) with
    | error e =>
      simp only [hd, except_bind_error] at h
      exact Except.noConfusion h
    | ok pr =>
      obtain ⟨mask, note⟩ := pr
      simp only [hd, except_bind_ok] at h
      cases ha : outlierApplyAction policy suffix colName mask tbl maskT with
      | error e =>
        simp only [ha, except_bind_error] at h
        exact Except.noConfusion h
      | ok pr2 =>
        obtain ⟨tbl', maskT'⟩ := pr2
        simp only [ha, except_bind_ok, except_pure, Except.ok.injEq] at h
        have hmask : mask.length = n := (outlierDetect_length hd).trans hs_len
        obtain ⟨hA', hM', hsub'⟩ := outlierApplyAction_inv hA hM hmask hsub ha
        exact h ▸ ⟨hA', hM', hsub'⟩

/-- The outlier engine preserves the equal-length invariant, and every
action except `"drop"` preserves the input row count. -/
theorem applyOutlierPolicy_shape (t : Table) (columns : Option (List String))
    (policy : OutlierPolicy) (suffix : String) (out : Table × List OutlierRow)
    (hwf : Wf t) (hok : applyOutlierPolicy t columns policy suffix = .ok out) :
    Wf out.1 ∧ (policy.action ≠ "drop" → AllLen out.1 (nRows t)) := by
  have hA : AllLen t (nRows t) := hwf
  simp only [applyOutlierPolicy] at hok
  cases hf : (selectNumericColumns t columns).foldlM (outlierStep policy suffix)
      (t, ([] : List OutlierRow), List.replicate (nRows t) false) with
  | error e =>
    simp only [hf, except_bind_error] at hok
    exact Except.noConfusion hok
  | ok st =>
    obtain ⟨tbl, rows, maskT⟩ := st
    simp only [hf, except_bind_ok] at hok
    have hinv : OutlierInv t (nRows t) (tbl, rows, maskT) :=
      foldlM_inv _ (OutlierInv t (nRows t)) _ _ _
        (fun c hc s s' hi hstep =>
          outlierStep_inv policy suffix (selectNumericColumns_mem c hc) hi hstep)
        ⟨hA, by simp, fun x hx => hx⟩ hf
    obtain ⟨hA', _, _⟩ := hinv
    split at hok
    · next hdrop =>
      rw [except_pure, Except.ok.injEq] at hok
      subst hok
      refine ⟨Wf_of_AllLen (AllLen_filterRows tbl _), fun hne => absurd hdrop hne⟩
    · rw [except_pure, Except.ok.injEq] at hok
      subst hok
      exact ⟨Wf_of_AllLen hA', fun _ => hA'⟩

/-- C9: for every engine call that returns a frame, all columns of the
output have equal length (the `Wf` invariant), and that length equals the
input row count for every strategy/action except the row-dropping ones
(missing-value strategy `drop_rows`, outlier action `"drop"`). -/
theorem C9_equal_length_invariant :
    (∀ (cfg : HMConfig) (t t' : Table), Wf t → handleMissing cfg t = .ok t' →
      Wf t' ∧ (cfg.strategy ≠ .drop_rows → ∀ col ∈ t', col.cells.length = nRows t)) ∧
    (∀ (t : Table) (columns : Option (List String)) (policy : OutlierPolicy)
        (suffix : String) (out : Table × List OutlierRow),
      Wf t → applyOutlierPolicy t columns policy suffix = .ok out →
      Wf out.1 ∧ (policy.action ≠ "drop" → ∀ col ∈ out.1, col.cells.length = nRows t)) :=
  ⟨fun cfg t t' hwf hok => handleMissing_shape cfg t t' hwf hok,
   fun t columns policy suffix out hwf hok =>
     applyOutlierPolicy_shape t columns policy suffix out hwf hok⟩

/-- Witness for `C9_equal_length_invariant`: a concrete `median` fill and a
concrete `cap` outlier call, both preserving shape and row count. -/
theorem C9_equal_length_witness :
    (Wf [(⟨"x", .numeric, [some (.num 1), some (.num 1)]⟩ : Column)] ∧
      ∀ col ∈ [(⟨"x", .numeric, [some (.num 1), some (.num 1)]⟩ : Column)],
        col.cells.length = 2) ∧
    (Wf [(⟨"y", .numeric, [some (.num (501/100)), some (.num (599/100))]⟩ : Column)] ∧
      ∀ col ∈ [(⟨"y", .numeric, [some (.num (501/100)), some (.num (599/100))]⟩ : Column)],
        col.cells.length = 2) := by
  have h1 := C9_equal_length_invariant.1 { columns := some ["x"], strategy := .median }
    [⟨"x", .numeric, [some (.num 1), none]⟩]
    [⟨"x", .numeric, [some (.num 1), some (.num 1)]⟩] (by decide) (by decide)
  have h2 := C9_equal_length_invariant.2 [⟨"y", .numeric, [some (.num 5), some (.num 6)]⟩]
    (some ["y"]) { method := "iqr", action := "cap", min_non_null := 1 } "__is_outlier"
    ([⟨"y", .numeric, [some (.num (501/100)), some (.num (599/100))]⟩],
     [⟨"y", "iqr", "cap", 2, 0, some 0, "iqr_k and iqr bounds"⟩]) (by decide) (by decide)
  exact ⟨⟨h1.1, h1.2 (by decide)⟩, ⟨h2.1, h2.2 (by decide)⟩⟩

end DataCleaning
